import Mathlib

/-!
Shallow embedding of the pgreplay-go log-to-traffic pipeline
(gocardless/pgreplay-go), covering:

* the stderr/CSV log parsers (`ParseItem`, `ParseCsvItem`,
  `parseDetailToItem`, `ParseErrlog`),
* the bind-parameter scanner (`ParseBindParameters`,
  `bindParametersSplitFunc`, `findClosingTag`),
* the multi-line errlog scanner split function (`logLineSplitFunc`),
* the streamer (`Streamer.Filter`, `Streamer.Stream`), and
* the JSON item (de)serialization (`ItemMarshalJSON`, `ItemUnmarshalJSON`).

Strings from the Go side are modelled as `List Char`; Go maps keyed by
session id are modelled as association lists with insert-overwrite
semantics; channels are modelled as the lists of values sent over them.
-/

set_option autoImplicit false

namespace PG

/-! ## Basic character and list-of-char utilities -/

/-- Go `unicode.IsSpace` restricted to the ASCII whitespace characters
that can occur in Postgres logs. -/
def isSpaceChar (c : Char) : Bool :=
  c = ' ' || c = '\t' || c = '\n' || c = '\x0d' || c = '\x0b' || c = '\x0c'

/-- Regexp `\w`: ASCII word character. -/
def isWordChar (c : Char) : Bool :=
  c.isAlpha || c.isDigit || c = '_'

/-- `hasPref p s` is true when `p` is a prefix of `s`
(Go `strings.HasPrefix` / `bytes.HasPrefix`). -/
def hasPref : List Char → List Char → Bool
  | [], _ => true
  | _ :: _, [] => false
  | p :: ps, c :: cs => p = c && hasPref ps cs

/-- Go `strings.TrimPrefix`: drop `p` from the front of `s` when it is a
prefix, otherwise return `s` unchanged. -/
def trimPrefix (p s : List Char) : List Char :=
  if hasPref p s then s.drop p.length else s

/-- Drop leading whitespace. -/
def trimLeft (s : List Char) : List Char := s.dropWhile isSpaceChar

/-- Go `bytes.TrimSpace`: trim whitespace from both ends. -/
def trimSpace (s : List Char) : List Char :=
  (trimLeft ((trimLeft s.reverse)).reverse)

/-- Go `strings.Replace(s, "\n\t", "\n", -1)`: fold every newline+tab
pair into a bare newline (left-to-right, non-overlapping). -/
def replaceNlTab : List Char → List Char
  | [] => []
  | '\n' :: '\t' :: rest => '\n' :: replaceNlTab rest
  | c :: rest => c :: replaceNlTab rest

/-- Go `strings.Replace(s, "''", "'", -1)`: decode the doubled
single-quote escape (left-to-right, non-overlapping). -/
def unescapeQuotes : List Char → List Char
  | [] => []
  | '\'' :: '\'' :: rest => '\'' :: unescapeQuotes rest
  | c :: rest => c :: unescapeQuotes rest

/-- First index of character `c` (Go `bytes.Index` with a one-byte
needle), `none` when absent. -/
def idxOf? (c : Char) : List Char → Option Nat
  | [] => none
  | x :: xs => if x = c then some 0 else (idxOf? c xs).map (· + 1)

/-- Split at the first occurrence of `c`: `some (before, after)` with the
separator removed, or `none` when `c` does not occur. -/
def splitOnce (c : Char) : List Char → Option (List Char × List Char)
  | [] => none
  | x :: xs =>
    if x = c then some ([], xs)
    else (splitOnce c xs).map (fun p => (x :: p.1, p.2))

/-- Go `strings.SplitN(s, sep, n)` for a one-character separator: at most
`n` pieces, the last piece keeps the remaining separators. -/
def splitN (c : Char) (n : Nat) (s : List Char) : List (List Char) :=
  match n with
  | 0 => []
  | 1 => [s]
  | n + 1 =>
    match splitOnce c s with
    | none => [s]
    | some (a, b) => a :: splitN c (n + 1 - 1) b

/-- Everything after the first `:` (Go
`strings.SplitN(s, ":", 2)[1]`); `none` when there is no colon. -/
def afterFirstColon (s : List Char) : Option (List Char) :=
  (splitOnce ':' s).map (·.2)

end PG

namespace PG

/-! ## Regexp matchers used by the log-message table

The `LogMessage` table in the source pairs an action prefix with an
anchored regexp.  Every regexp is anchored with `^`, so a Go
`MatchString`/`FindString` either matches starting at offset 0 or not at
all.  `.` in Go regexps does not match a newline, and `.*` is greedy, so
`^.*lit` matches iff `lit` occurs with its start inside the first line,
and `FindString` extends to the end of the *last* such occurrence. -/

/-- `^.*` followed by a sub-pattern `p` (where `p rest` decides whether
the sub-pattern matches at this offset): true iff `p` matches at some
offset whose preceding characters contain no newline. -/
def matchSomewhere (p : List Char → Bool) : List Char → Bool
  | [] => p []
  | c :: rest => p (c :: rest) || (c ≠ '\n' && matchSomewhere p rest)

/-- End offset of the greedy `^.*p` match: the end position of the last
offset in the first line where sub-pattern `q` matches (`q rest` returns
the length matched at that offset).  Mirrors `regexp.FindString` for the
`^.*lit` patterns of the source. -/
def lastMatchEnd (q : List Char → Option Nat) : List Char → Option Nat
  | [] => q []
  | c :: rest =>
    match (if c ≠ '\n' then lastMatchEnd q rest else none) with
    | some n => some (n + 1)
    | none => q (c :: rest)

/-- Sub-pattern `execute <unnamed>\: ` at the current offset. -/
def unnamedExecAt (s : List Char) : Option Nat :=
  if hasPref ("execute <unnamed>: ".toList) s then some 19 else none

/-- Sub-pattern `execute (\w+)\: ` at the current offset (`\w+` greedy;
a colon is not a word character, so the greedy run is exact). -/
def namedExecAt (s : List Char) : Option Nat :=
  if hasPref ("execute ".toList) s then
    let rest := s.drop 8
    let w := rest.takeWhile isWordChar
    if w.length ≠ 0 && hasPref (": ".toList) (rest.drop w.length) then
      some (8 + w.length + 2)
    else none
  else none

/-- Sub-pattern `statement\: ` at the current offset. -/
def statementAt (s : List Char) : Option Nat :=
  if hasPref ("statement: ".toList) s then some 11 else none

/-- `^duration\: (\d+)\.(\d+) ms$`: a full-string match. -/
def isDurationMsg (s : List Char) : Bool :=
  if hasPref ("duration: ".toList) s then
    let rest := s.drop 10
    let d1 := rest.takeWhile Char.isDigit
    let rest2 := rest.drop d1.length
    d1.length ≠ 0 &&
      (match rest2 with
       | '.' :: rest3 =>
         let d2 := rest3.takeWhile Char.isDigit
         d2.length ≠ 0 && rest3.drop d2.length = " ms".toList
       | _ => false)
  else false

/-- The two log sources of the Go code. -/
inductive Source where
  | errlog
  | csv
  deriving DecidableEq, Repr

/-- `LogMessage.Match`: for the errlog source the action prefix is first
trimmed from the message, for csv the message is used as-is; then the
table's regexp is applied. -/
def lmMatch (actionType : List Char) (regex : List Char → Bool)
    (msg : List Char) (src : Source) : Bool :=
  match src with
  | .errlog => regex (trimPrefix actionType msg)
  | .csv => regex msg

/-- `ActionLog` constant of the source. -/
def actionLog : List Char := "LOG:  ".toList
/-- `ActionDetail` constant of the source. -/
def actionDetail : List Char := "DETAIL:  ".toList
/-- `ActionError` constant of the source. -/
def actionError : List Char := "ERROR:  ".toList

/-- `LogDuration.Match`. -/
def durationMatch (msg : List Char) (src : Source) : Bool :=
  lmMatch actionLog isDurationMsg msg src

/-- `LogStatement.Match` (regexp `^.*statement\: `). -/
def statementMatch (msg : List Char) (src : Source) : Bool :=
  lmMatch actionLog (matchSomewhere (fun s => (statementAt s).isSome)) msg src

/-- `LogExtendedProtocolExecute.Match` (regexp `^.*execute <unnamed>\: `). -/
def unnamedExecMatch (msg : List Char) (src : Source) : Bool :=
  lmMatch actionLog (matchSomewhere (fun s => (unnamedExecAt s).isSome)) msg src

/-- `LogNamedPrepareExecute.Match` (regexp `^.*execute (\w+)\: `). -/
def namedExecMatch (msg : List Char) (src : Source) : Bool :=
  lmMatch actionLog (matchSomewhere (fun s => (namedExecAt s).isSome)) msg src

/-- `LogExtendedProtocolParameters.Match` (regexp `^parameters\: `). -/
def paramsMatch (msg : List Char) (src : Source) : Bool :=
  lmMatch actionDetail (fun s => hasPref ("parameters: ".toList) s) msg src

/-- `LogConnectionAuthorized.Match`. -/
def connAuthMatch (msg : List Char) (src : Source) : Bool :=
  lmMatch actionLog (fun s => hasPref ("connection authorized: ".toList) s) msg src

/-- `LogConnectionDisconnect.Match`. -/
def disconnMatch (msg : List Char) (src : Source) : Bool :=
  lmMatch actionLog (fun s => hasPref ("disconnection: ".toList) s) msg src

/-- `LogConnectionReceived.Match`. -/
def connRecvMatch (msg : List Char) (src : Source) : Bool :=
  lmMatch actionLog (fun s => hasPref ("connection received: ".toList) s) msg src

/-- `LogError.Match` (regexp `^ERROR\: .+`, after trimming the
`ERROR:  ` action prefix in errlog mode). -/
def errorMatch (msg : List Char) (src : Source) : Bool :=
  lmMatch actionError
    (fun s => hasPref ("ERROR: ".toList) s && (s.drop 7).length ≠ 0 &&
      (s.getD 7 ' ') ≠ '\n') msg src

/-- `LogDetail.Match` (regexp `^DETAIL\: .+`). -/
def detailMatch (msg : List Char) (src : Source) : Bool :=
  lmMatch actionDetail
    (fun s => hasPref ("DETAIL: ".toList) s && (s.drop 8).length ≠ 0 &&
      (s.getD 8 ' ') ≠ '\n') msg src

/-- `LogMessage.RenderQuery` for the errlog source: trim
`actionType ++ statement` as a literal prefix (no regexp involved). -/
def renderQueryErrlog (prefixStr msg : List Char) : List Char :=
  trimPrefix prefixStr msg

/-- `LogMessage.RenderQuery` for the csv source:
`msg[len(regex.FindString(msg)):]`.  `q` is the sub-pattern behind the
`^.*`; when the regexp does not match, `FindString` returns the empty
string and the whole message is kept. -/
def renderQueryCsvDotStar (q : List Char → Option Nat) (msg : List Char) : List Char :=
  match lastMatchEnd q msg with
  | some n => msg.drop n
  | none => msg

/-- csv `RenderQuery` for `LogExtendedProtocolParameters` (regexp
`^parameters\: `, no `.*`): drop the prefix when it matches, else keep
the whole string. -/
def renderParamsCsv (s : List Char) : List Char :=
  if hasPref ("parameters: ".toList) s then s.drop 12 else s

end PG

namespace PG

/-! ## Items and the pending-execute map -/

/-- A single bind parameter: SQL `NULL` or a text value. -/
inductive Param where
  | null
  | str (s : List Char)
  deriving DecidableEq, Repr

/-- `Details`: the timestamp is kept as the raw (already validated)
timestamp text, which is all the parser claims depend on. -/
structure Details where
  timestamp : List Char
  sessionID : List Char
  user : List Char
  database : List Char
  deriving DecidableEq, Repr

/-- `Execute`: a pending extended-protocol execute. -/
structure Exec where
  details : Details
  query : List Char
  deriving DecidableEq, Repr

/-- The `Item` interface variants.  `execute` is representable so that
"an Execute is never emitted" is a non-vacuous statement. -/
inductive Item where
  | connect (d : Details)
  | disconnect (d : Details)
  | statement (d : Details) (query : List Char)
  | execute (d : Details) (query : List Char)
  | boundExecute (d : Details) (query : List Char) (params : List Param)
  deriving DecidableEq, Repr

/-- Is this item the (never-emitted) pending-execute variant? -/
def Item.isExecute : Item → Bool
  | .execute _ _ => true
  | _ => false

/-- `Execute.Bind`: `nil` parameters become an empty list. -/
def bindExec (e : Exec) (ps : Option (List Param)) : Item :=
  .boundExecute e.details e.query (ps.getD [])

/-- The `unbounds` map: Go `map[SessionID]*Execute` as an association
list (insert overwrites, delete removes). -/
abbrev UMap := List (List Char × Exec)

/-- Map lookup. -/
def ulookup (m : UMap) (s : List Char) : Option Exec :=
  match m with
  | [] => none
  | (k, v) :: rest => if k = s then some v else ulookup rest s

/-- Map deletion. -/
def uerase (m : UMap) (s : List Char) : UMap :=
  match m with
  | [] => []
  | (k, v) :: rest => if k = s then uerase rest s else (k, v) :: uerase rest s

/-- Map insert-or-overwrite. -/
def uinsert (m : UMap) (s : List Char) (e : Exec) : UMap :=
  (s, e) :: uerase m s

/-- `ExtractedLog` of the source. -/
structure ExtractedLog where
  details : Details
  action : List Char
  message : List Char
  parameters : List Char
  deriving DecidableEq, Repr

end PG

namespace PG

/-! ## ParseBindParameters and its split function -/

/-- `findClosingTag(input, "'", "''")` as called by
`bindParametersSplitFunc`: first index of a `'` that is not the start of
the `''` escape sequence (the escape check takes priority and skips both
characters).  Go returns `-1` when absent; we return `none`. -/
def findClosingTag : List Char → Option Nat
  | [] => none
  | c :: rest =>
    if c = '\'' then
      match rest with
      | c2 :: rest2 =>
        if c2 = '\'' then (findClosingTag rest2).map (· + 2) else some 0
      | [] => some 0
    else (findClosingTag rest).map (· + 1)

/-- The `\$\d+ = ` core of `prefixMatcher`: `\d+` is greedy and is
followed by a space, so the maximal digit run is exact. -/
def paramPrefixCore : List Char → Option Nat
  | [] => none
  | c :: rest =>
    if c = '$' then
      if (rest.takeWhile Char.isDigit).length = 0 then none
      else if hasPref (" = ".toList)
          (rest.drop (rest.takeWhile Char.isDigit).length) then
        some (1 + (rest.takeWhile Char.isDigit).length + 3)
      else none
    else none

/-- `prefixMatcher.Find`: length of the `^(, )?\$\d+ = ` match, `none`
when it does not match.  The optional `(, )` group is taken whenever the
rest still matches (and if it cannot, a match without the group would
need `$` at offset 0, which `,` is not). -/
def matchParamPrefix (data : List Char) : Option Nat :=
  match data with
  | c1 :: c2 :: rest =>
    if c1 = ',' ∧ c2 = ' ' then
      match paramPrefixCore rest with
      | some n => some (n + 2)
      | none => paramPrefixCore data
    else paramPrefixCore data
  | _ => paramPrefixCore data

/-- One step of `bindParametersSplitFunc` on fully buffered data. -/
inductive BindSplit where
  | done
  | tok (token : List Char) (rest : List Char)
  | err (data : List Char)
  deriving DecidableEq, Repr

/-- `bindParametersSplitFunc`.  The enclosing `bufio.Scanner` only calls
the split function with empty data once EOF is reached, so the empty
case is the end-of-scan. -/
def bindParametersSplitFunc (data : List Char) : BindSplit :=
  match data with
  | [] => .done
  | _ =>
    match matchParamPrefix data with
    | none => .err data
    | some advance =>
      if hasPref ("NULL".toList) (data.drop advance) then
        .tok ("NULL".toList) (data.drop (advance + 4))
      else
        match findClosingTag (data.drop (advance + 1)) with
        | none => .err data
        | some closingIdx =>
          .tok ((data.drop advance).take (2 + closingIdx))
            (data.drop (advance + 2 + closingIdx))

/-- Body of the `ParseBindParameters` scan loop: `NULL` tokens become
null parameters, every other token is stripped of its surrounding quotes
and has the `''` escape decoded. -/
def tokenToParam (token : List Char) : Param :=
  if token = "NULL".toList then .null
  else .str (unescapeQuotes ((token.drop 1).take (token.length - 2)))

/-- The `ParseBindParameters` scan loop, with fuel (each produced token
consumes at least one character, so `data.length + 1` fuel always
suffices; see `parseBindLoop_fuel_irrel`). -/
def parseBindLoop : Nat → List Char → Except (List Char) (List Param)
  | 0, _ => .error []
  | fuel + 1, data =>
    match bindParametersSplitFunc data with
    | .done => .ok []
    | .err d => .error d
    | .tok token rest =>
      match parseBindLoop fuel rest with
      | .ok ps => .ok (tokenToParam token :: ps)
      | .error e => .error e

/-- `ParseBindParameters`. -/
def ParseBindParameters (input : List Char) : Except (List Char) (List Param) :=
  parseBindLoop (input.length + 1) input

end PG

namespace PG

/-! ## parseDetailToItem, ParseItem, ParseCsvItem, and the errlog fold -/

/-- Decidable equality of `Except` results, for concrete evaluation. -/
instance exceptDecEq {ε α : Type} [DecidableEq ε] [DecidableEq α] :
    DecidableEq (Except ε α) := fun a b =>
  match a, b with
  | .ok x, .ok y =>
    if h : x = y then .isTrue (by rw [h]) else .isFalse (by simp [h])
  | .error x, .error y =>
    if h : x = y then .isTrue (by rw [h]) else .isFalse (by simp [h])
  | .ok _, .error _ => .isFalse (by simp)
  | .error _, .ok _ => .isFalse (by simp)

/-- Result of one parse step: an error, no item, or one item, together
with the updated pending-execute map. -/
abbrev ParseResult := Except (List Char) (Option Item) × UMap

/-- `parseDetailToItem`, branch for branch.  Error strings are
abbreviated to a stable tag plus the offending text. -/
def parseDetailToItem (el : ExtractedLog) (src : Source) (unbounds : UMap) :
    ParseResult :=
  -- LOG:  duration: 0.043 ms
  if durationMatch el.message src then
    match ulookup unbounds el.details.sessionID with
    | some unbound =>
      (.ok (some (bindExec unbound none)), uerase unbounds el.details.sessionID)
    | none => (.ok none, unbounds)
  -- LOG:  statement: select pg_reload_conf();
  else if statementMatch el.message src then
    match src with
    | .errlog =>
      (.ok (some (.statement el.details
        (renderQueryErrlog (actionLog ++ "statement: ".toList) el.message))), unbounds)
    | .csv =>
      (.ok (some (.statement el.details
        (renderQueryCsvDotStar statementAt el.message))), unbounds)
  -- LOG:  execute <unnamed>: select pg_sleep($1)
  else if unnamedExecMatch el.message src then
    match src with
    | .csv =>
      let query := renderQueryCsvDotStar unnamedExecAt el.message
      match ParseBindParameters (renderParamsCsv el.parameters) with
      | .error e => (.error ("[UnNamedExecute]: ".toList ++ e), unbounds)
      | .ok params =>
        (.ok (some (bindExec ⟨el.details, query⟩ (some params))), unbounds)
    | .errlog =>
      let query := renderQueryErrlog (actionLog ++ "execute <unnamed>: ".toList) el.message
      (.ok none, uinsert unbounds el.details.sessionID ⟨el.details, query⟩)
  -- LOG:  execute name: select pg_sleep($1)
  else if namedExecMatch el.message src then
    match src with
    | .csv =>
      let query := renderQueryCsvDotStar namedExecAt el.message
      match ParseBindParameters (renderParamsCsv el.parameters) with
      | .error e => (.error ("[NamedExecute]: ".toList ++ e), unbounds)
      | .ok params =>
        (.ok (some (bindExec ⟨el.details, query⟩ (some params))), unbounds)
    | .errlog =>
      let query := (afterFirstColon
        (renderQueryErrlog (actionLog ++ "execute ".toList) el.message)).getD []
      (.ok none, uinsert unbounds el.details.sessionID ⟨el.details, query⟩)
  -- DETAIL:  parameters: $1 = '1', $2 = NULL
  else if paramsMatch el.message src then
    match ulookup unbounds el.details.sessionID with
    | some unbound =>
      match ParseBindParameters
        (renderQueryErrlog (actionDetail ++ "parameters: ".toList) el.message) with
      | .error e => (.error ("failed to parse bind parameters: ".toList ++ e), unbounds)
      | .ok parameters =>
        (.ok (some (bindExec unbound (some parameters))),
          uerase unbounds el.details.sessionID)
    | none =>
      (.error ("cannot process bind parameters without previous execute item: ".toList
        ++ el.message), unbounds)
  -- LOG:  connection authorized: user=postgres database=postgres
  else if connAuthMatch el.message src then
    (.ok (some (.connect el.details)), unbounds)
  -- LOG:  disconnection: session time: ...
  else if disconnMatch el.message src then
    (.ok (some (.disconnect el.details)), unbounds)
  -- LOG:  connection received: host=...
  else if connRecvMatch el.message src then
    (.ok none, unbounds)
  -- ERROR:  ... (not replayed)
  else if el.action = "ERROR".toList || errorMatch el.message src then
    (.ok none, unbounds)
  -- any other DETAIL:  ... (ignored)
  else if el.action = "DETAIL".toList || detailMatch el.message src then
    (.ok none, unbounds)
  else
    (.error ("no parser matches line: ".toList ++ el.message), unbounds)

/-- `renderQueryErrlog` of `LogExtendedProtocolParameters`: the detail
prefix trimmed from a parameters message.  Named so theorems can refer to
the parameter text handed to `ParseBindParameters`. -/
def paramsSuffixErrlog (msg : List Char) : List Char :=
  renderQueryErrlog (actionDetail ++ "parameters: ".toList) msg

end PG

namespace PG

/-! ## Timestamps, ParseItem, ParseCsvItem, ParseErrlog -/

/-- Numeric value of a fixed-width digit segment. -/
def natOfDigits (l : List Char) : Nat :=
  l.foldl (fun n c => n * 10 + (c.toNat - 48)) 0

/-- Gregorian leap-year rule (as in Go `time`). -/
def isLeapYear (y : Nat) : Bool :=
  y % 4 = 0 && (y % 100 ≠ 0 || y % 400 = 0)

/-- Days in a month (as validated by Go `time.Parse`). -/
def daysInMonth (y m : Nat) : Nat :=
  if m = 2 then (if isLeapYear y then 29 else 28)
  else if m = 4 || m = 6 || m = 9 || m = 11 then 30
  else 31

/-- Segment of `s` starting at `off` with length `len`. -/
def seg (s : List Char) (off len : Nat) : List Char := (s.drop off).take len

/-- Go `time.Parse` with the fixed layout `PostgresTimestampFormat =
"2006-01-02 15:04:05.000 MST"`, modelled as a validity check on the raw
text: fixed-width digit fields with the layout's separators, exactly
three fractional digits, in-range month/day/hour/minute/second, and a
timezone abbreviation modelled as 3 or 4 uppercase ASCII letters.  The
parsed `time.Time` value itself is not needed by any claim, so `Details`
keeps the raw text. -/
def validTimestamp (s : List Char) : Bool :=
  (s.length = 27 || s.length = 28) &&
  (seg s 0 4).all Char.isDigit && s.getD 4 'x' = '-' &&
  (seg s 5 2).all Char.isDigit && s.getD 7 'x' = '-' &&
  (seg s 8 2).all Char.isDigit && s.getD 10 'x' = ' ' &&
  (seg s 11 2).all Char.isDigit && s.getD 13 'x' = ':' &&
  (seg s 14 2).all Char.isDigit && s.getD 16 'x' = ':' &&
  (seg s 17 2).all Char.isDigit && s.getD 19 'x' = '.' &&
  (seg s 20 3).all Char.isDigit && s.getD 23 'x' = ' ' &&
  (s.drop 24).all Char.isUpper &&
  (let mo := natOfDigits (seg s 5 2)
   let dy := natOfDigits (seg s 8 2)
   1 ≤ mo && mo ≤ 12 && 1 ≤ dy && dy ≤ daysInMonth (natOfDigits (seg s 0 4)) mo) &&
  natOfDigits (seg s 11 2) ≤ 23 &&
  natOfDigits (seg s 14 2) ≤ 59 && natOfDigits (seg s 17 2) ≤ 59

/-- `ParseItem`: split the errlog line into exactly five `|`-separated
tokens, validate the timestamp, and dispatch on the message.  The
errlog path always passes an empty `ActionLog` and `Parameters`. -/
def ParseItem (logline : List Char) (unbounds : UMap) : ParseResult :=
  let tokens := splitN '|' 5 logline
  if tokens.length ≠ 5 then
    (.error ("failed to parse log line: ".toList ++ logline), unbounds)
  else if !(validTimestamp (tokens.getD 0 [])) then
    (.error ("failed to parse log timestamp: ".toList ++ tokens.getD 0 []), unbounds)
  else
    parseDetailToItem
      { details :=
          { timestamp := tokens.getD 0 [], sessionID := tokens.getD 3 []
            user := tokens.getD 1 [], database := tokens.getD 2 [] }
        action := [], message := tokens.getD 4 [], parameters := [] }
      .errlog unbounds

/-- `ParseCsvItem`: a csvlog record as the list of its fields; fields
1/2/5/11/13/14 are user/database/session/action/message/parameters. -/
def ParseCsvItem (logline : List (List Char)) (unbounds : UMap) : ParseResult :=
  if logline.length < 15 then
    (.error ("failed to parse log line".toList), unbounds)
  else if !(validTimestamp (logline.getD 0 [])) then
    (.error ("failed to parse log timestamp: ".toList ++ logline.getD 0 []), unbounds)
  else
    parseDetailToItem
      { details :=
          { timestamp := logline.getD 0 [], sessionID := logline.getD 5 []
            user := logline.getD 1 [], database := logline.getD 2 [] }
        action := logline.getD 11 [], message := logline.getD 13 []
        parameters := logline.getD 14 [] }
      .csv unbounds

/-- The `ParseErrlog` goroutine loop: run `ParseItem` over each scanned
logical line, pushing parse errors on the error channel and non-nil
items on the item channel; the pending-execute map is threaded through
and simply forgotten at end of input. -/
def runErrlog : List (List Char) → UMap → List Item × List (List Char) × UMap
  | [], m => ([], [], m)
  | l :: ls, m =>
    let r := ParseItem l m
    let rest := runErrlog ls r.2
    match r.1 with
    | .ok none => rest
    | .ok (some it) => (it :: rest.1, rest.2.1, rest.2.2)
    | .error e => (rest.1, e :: rest.2.1, rest.2.2)

/-- `ParseErrlog`: the items and errors produced for a list of logical
log lines, starting from an empty pending-execute map.  Any Executes
still pending at end of input are dropped with the final map. -/
def ParseErrlog (lines : List (List Char)) : List Item × List (List Char) :=
  ((runErrlog lines []).1, (runErrlog lines []).2.1)

end PG

namespace PG

/-! ## Instrumented errlog fold

Proof-side instrumentation for the Execute life-cycle accounting: the
pending-execute map additionally remembers the index of the log line
that stored each pending Execute, emitted BoundExecutes carry the origin
index of the Execute they complete, and the fold records which origins
were stored and which were dropped by an overwriting execute line.
`parseDetailToItemIx_erase` and `runIx_erase` prove that erasing the
instrumentation recovers the source-translated functions exactly. -/

/-- Pending-execute map with origin indices. -/
abbrev IxMap := List (List Char × (Nat × Exec))

/-- Lookup in the instrumented map. -/
def ixlookup (m : IxMap) (s : List Char) : Option (Nat × Exec) :=
  match m with
  | [] => none
  | (k, v) :: rest => if k = s then some v else ixlookup rest s

/-- Deletion in the instrumented map. -/
def ixerase (m : IxMap) (s : List Char) : IxMap :=
  match m with
  | [] => []
  | (k, v) :: rest => if k = s then ixerase rest s else (k, v) :: ixerase rest s

/-- Forget the origin indices. -/
def eraseIx (m : IxMap) : UMap := m.map (fun p => (p.1, p.2.2))

/-- State of the instrumented fold. -/
structure IxState where
  unbounds : IxMap
  stored : List Nat
  dropped : List Nat

/-- Record a newly stored pending Execute with origin `i`, recording the
origin of any overwritten pending Execute for the same session as
dropped. -/
def ixstore (st : IxState) (s : List Char) (i : Nat) (e : Exec) : IxState :=
  { unbounds := (s, (i, e)) :: ixerase st.unbounds s
    stored := i :: st.stored
    dropped :=
      match ixlookup st.unbounds s with
      | some (o, _) => o :: st.dropped
      | none => st.dropped }

/-- `parseDetailToItem`, instrumented with origin indices (errlog source
only, which is the only source `ParseErrlog` uses).  Structure matches
`parseDetailToItem` branch for branch. -/
def parseDetailToItemIx (el : ExtractedLog) (i : Nat) (st : IxState) :
    Except (List Char) (Option (Item × Option Nat)) × IxState :=
  if durationMatch el.message .errlog then
    match ixlookup st.unbounds el.details.sessionID with
    | some (o, unbound) =>
      (.ok (some (bindExec unbound none, some o)),
        { st with unbounds := ixerase st.unbounds el.details.sessionID })
    | none => (.ok none, st)
  else if statementMatch el.message .errlog then
    (.ok (some (.statement el.details
      (renderQueryErrlog (actionLog ++ "statement: ".toList) el.message), none)), st)
  else if unnamedExecMatch el.message .errlog then
    let query := renderQueryErrlog (actionLog ++ "execute <unnamed>: ".toList) el.message
    (.ok none, ixstore st el.details.sessionID i ⟨el.details, query⟩)
  else if namedExecMatch el.message .errlog then
    let query := (afterFirstColon
      (renderQueryErrlog (actionLog ++ "execute ".toList) el.message)).getD []
    (.ok none, ixstore st el.details.sessionID i ⟨el.details, query⟩)
  else if paramsMatch el.message .errlog then
    match ixlookup st.unbounds el.details.sessionID with
    | some (o, unbound) =>
      match ParseBindParameters (paramsSuffixErrlog el.message) with
      | .error e => (.error ("failed to parse bind parameters: ".toList ++ e), st)
      | .ok parameters =>
        (.ok (some (bindExec unbound (some parameters), some o)),
          { st with unbounds := ixerase st.unbounds el.details.sessionID })
    | none =>
      (.error ("cannot process bind parameters without previous execute item: ".toList
        ++ el.message), st)
  else if connAuthMatch el.message .errlog then
    (.ok (some (.connect el.details, none)), st)
  else if disconnMatch el.message .errlog then
    (.ok (some (.disconnect el.details, none)), st)
  else if connRecvMatch el.message .errlog then
    (.ok none, st)
  else if el.action = "ERROR".toList || errorMatch el.message .errlog then
    (.ok none, st)
  else if el.action = "DETAIL".toList || detailMatch el.message .errlog then
    (.ok none, st)
  else
    (.error ("no parser matches line: ".toList ++ el.message), st)

/-- `ParseItem`, instrumented. -/
def ParseItemIx (logline : List Char) (i : Nat) (st : IxState) :
    Except (List Char) (Option (Item × Option Nat)) × IxState :=
  let tokens := splitN '|' 5 logline
  if tokens.length ≠ 5 then
    (.error ("failed to parse log line: ".toList ++ logline), st)
  else if !(validTimestamp (tokens.getD 0 [])) then
    (.error ("failed to parse log timestamp: ".toList ++ tokens.getD 0 []), st)
  else
    parseDetailToItemIx
      { details :=
          { timestamp := tokens.getD 0 [], sessionID := tokens.getD 3 []
            user := tokens.getD 1 [], database := tokens.getD 2 [] }
        action := [], message := tokens.getD 4 [], parameters := [] }
      i st

/-- The instrumented errlog fold (`i` is the index of the next line). -/
def runIx : List (List Char) → Nat → IxState →
    List (Item × Option Nat) × List (List Char) × IxState
  | [], _, st => ([], [], st)
  | l :: ls, i, st =>
    let r := ParseItemIx l i st
    let rest := runIx ls (i + 1) r.2
    match r.1 with
    | .ok none => rest
    | .ok (some it) => (it :: rest.1, rest.2.1, rest.2.2)
    | .error e => (rest.1, e :: rest.2.1, rest.2.2)

/-- Number of emitted BoundExecutes completing the Execute stored at
line `o`. -/
def countBound (o : Nat) (out : List (Item × Option Nat)) : Nat :=
  (out.filter (fun p => p.2 = some o)).length

/-- Number of pending map entries with origin `o`. -/
def countPend (o : Nat) (m : IxMap) : Nat :=
  (m.filter (fun p => p.2.1 = o)).length

/-- The initial instrumented state. -/
def ixInit : IxState := ⟨[], [], []⟩

/-- The sessions of the map are pairwise distinct (Go map invariant,
maintained by insert-after-erase). -/
def keysNodup (m : IxMap) : Prop := (m.map Prod.fst).Nodup

/-- Number of BoundExecutes with origin `o` in one step result (0 or 1). -/
def countRes (o : Nat) (r : Except (List Char) (Option (Item × Option Nat))) : Nat :=
  match r with
  | .ok (some (_, some o2)) => if o2 = o then 1 else 0
  | .ok (some (_, none)) => 0
  | .ok none => 0
  | .error _ => 0

/-- A three-line errlog: two unnamed `execute` lines for session `s1`
followed by a `duration:` line for `s1`.  The second `execute` overwrites
the pending Execute stored by the first. -/
def overwriteLines : List (List Char) :=
  [ "2019-05-01 15:33:58.254 GMT|postgres|postgres|s1|LOG:  execute <unnamed>: select 1".toList
  , "2019-05-01 15:33:59.254 GMT|postgres|postgres|s1|LOG:  execute <unnamed>: select 2".toList
  , "2019-05-01 15:34:00.254 GMT|postgres|postgres|s1|LOG:  duration: 0.043 ms".toList ]

end PG

namespace Scanner

open PG (trimSpace replaceNlTab idxOf?)

/-! ## The errlog scanner split function (`logLineSplitFunc`) -/

/-- Result of one `bufio.SplitFunc` invocation: scanning is finished
(EOF with no buffered data), more input is needed, or a token is emitted
after advancing `advance` bytes. -/
inductive ScanStep where
  | finished
  | needMore
  | emit (advance : Nat) (token : List Char)
  deriving DecidableEq, Repr

/-- The scan loop of `logLineSplitFunc`: starting at offset `a`, search
`data[a : len-1]` for a newline; found at absolute position `j` (so the
byte `data[j+1]` exists), stop with advance `j+1` when that byte is not
a tab and the data consumed so far is not all whitespace, else keep
scanning; when no newline remains, consume everything at EOF and ask
for more input otherwise. -/
def splitLoopGo (data : List Char) (atEOF : Bool) (a : Nat) (w : List Char) :
    Option Nat :=
  match h : idxOf? '\n' w with
  | none => if atEOF then some data.length else none
  | some off =>
    if data.getD (a + off + 1) ' ' ≠ '\t' ∧ trimSpace (data.take (a + off + 1)) ≠ []
    then some (a + off + 1)
    else splitLoopGo data atEOF (a + off + 1) (w.drop (off + 1))
termination_by w.length
decreasing_by
  cases w with
  | nil => simp [idxOf?] at h
  | cons x xs => simp [List.length_drop]; omega

/-- The scan loop entered at offset 0 with search window
`data[0 : len-1]` (Go never looks at the very last byte when searching
for a newline). -/
def splitLoop (data : List Char) (atEOF : Bool) : Option Nat :=
  splitLoopGo data atEOF 0 data.dropLast

/-- `logLineSplitFunc`. -/
def logLineSplitFunc (data : List Char) (atEOF : Bool) : ScanStep :=
  if atEOF ∧ data = [] then .finished
  else
    match splitLoop data atEOF with
    | none => .needMore
    | some advance => .emit advance (trimSpace (replaceNlTab (data.take advance)))

/-- Is position `j` a record terminator?  Written from the amended
claim: `data[j]` is a newline whose following byte exists and is not a
tab, and the data up to and including the newline does not trim to
nothing. -/
def goodTerm (data : List Char) (j : Nat) : Bool :=
  data.getD j ' ' = '\n' && j + 1 < data.length &&
    data.getD (j + 1) ' ' ≠ '\t' && trimSpace (data.take (j + 1)) ≠ []

/-- First record terminator at position `≥ a`. -/
def findGoodTerm (data : List Char) (a : Nat) : Option Nat :=
  if a < data.length then
    if goodTerm data a then some a else findGoodTerm data (a + 1)
  else none
termination_by data.length - a

/-- The split function the claim describes (with the whitespace proviso
of the amended claim): emit at the first record terminator; at EOF flush
everything that remains; otherwise request more input. -/
def logLineSplitSpec (data : List Char) (atEOF : Bool) : ScanStep :=
  if atEOF ∧ data = [] then .finished
  else
    match findGoodTerm data 0 with
    | some j => .emit (j + 1) (trimSpace (replaceNlTab (data.take (j + 1))))
    | none =>
      if atEOF then .emit data.length (trimSpace (replaceNlTab data))
      else .needMore

end Scanner

namespace Streamer

/-! ## The streamer: Filter and Stream

Items here only need their timestamp (`Item.GetTimestamp`), modelled in
nanoseconds as the `Int` the Go `time.Duration` arithmetic uses; the
channel of possibly-nil items is a `List (Option SItem)`. -/

/-- A streamed item: its timestamp in nanoseconds, plus a payload tag so
distinct items with equal timestamps stay distinguishable. -/
structure SItem where
  ts : Int
  tag : Nat
  deriving DecidableEq, Repr

/-- The synchronous pre-filter loop run when `start` is set: consume
items (skipping nils) until one with timestamp after `start` is
received, and return the rest of the channel.  Note the received item
that breaks the loop is not part of the rest. -/
def dropUntilAfter (start : Int) : List (Option SItem) → List (Option SItem)
  | [] => []
  | none :: rest => dropUntilAfter start rest
  | some it :: rest =>
    if start < it.ts then rest else dropUntilAfter start rest

/-- The producing loop of `Filter`: skip nils, stop at the first item
with timestamp after `finish` when `finish` is set. -/
def takePhase (finish : Option Int) : List (Option SItem) → List SItem
  | [] => []
  | none :: rest => takePhase finish rest
  | some it :: rest =>
    match finish with
    | some f => if f < it.ts then [] else it :: takePhase finish rest
    | none => it :: takePhase finish rest

/-- `Streamer.Filter`: the list of items sent on the output channel for
the given input channel contents. -/
def Filter (start finish : Option Int) (items : List (Option SItem)) :
    List SItem :=
  match start with
  | some s => takePhase finish (dropUntilAfter s items)
  | none => takePhase finish items

/-- The non-nil items of the input channel. -/
def nonNils : List (Option SItem) → List SItem
  | [] => []
  | none :: rest => nonNils rest
  | some it :: rest => it :: nonNils rest

/-- Truncation at `finish` as the claim states it: stop at the first
item with timestamp greater than `finish`. -/
def specTake (finish : Option Int) (l : List SItem) : List SItem :=
  match finish with
  | some f => l.takeWhile (fun it => !(f < it.ts))
  | none => l

/-- Go `time.Duration(rate)`: float64-to-int64 conversion truncates
toward zero; the streamer already rejected negative rates, so this is
the floor. -/
def durTrunc (rate : ℚ) : Int := ⌊rate⌋

/-- The sleep (in nanoseconds) `Streamer.Stream` computes before
emitting an item, given the rate, the simulated time since the first
item (`ts - first_ts`), and the wall-clock nanoseconds since the first
item (`time.Since(start)`):
`elapsedSinceStart := time.Duration(rate) * time.Since(start)`,
`diff := elapsedSinceFirst - elapsedSinceStart`, and it sleeps
`time.Duration(float64(diff) / rate)` when `diff > 0`.  Float64
rounding is modelled exactly over `ℚ`; the final Duration conversion
truncates (= floor, as the value is nonnegative). -/
def streamSleep (rate : ℚ) (simElapsed wallElapsed : Int) : Int :=
  let elapsedSinceStart : Int := durTrunc rate * wallElapsed
  let diff : Int := simElapsed - elapsedSinceStart
  if 0 < diff then ⌊(diff : ℚ) / rate⌋ else 0

/-- The sleep the claim describes: `((ts - first_ts) - w * r) / r` when
that quantity is positive, and no sleep otherwise, with the exact real
value of `r` throughout. -/
def claimSleep (rate : ℚ) (simElapsed wallElapsed : Int) : ℚ :=
  let diff : ℚ := (simElapsed : ℚ) - (wallElapsed : ℚ) * rate
  if 0 < diff then diff / rate else 0

end Streamer

namespace Ser

/-! ## JSON serialization of items (`ItemMarshalJSON` / `ItemUnmarshalJSON`)

A small JSON value model.  `time.Time` (de)serializes through its
RFC 3339 JSON form, which is an injective rendering exactly invertible
at the millisecond precision the parser produces; it is modelled here as
a JSON number holding the epoch-millisecond value, so the round-trip
carries the timestamp to millisecond precision as the real rendering
does. -/

/-- JSON values (numbers only arise for the modelled timestamps). -/
inductive Json where
  | null
  | num (n : Int)
  | str (s : String)
  | arr (xs : List Json)
  | obj (fields : List (String × Json))

/-- A bind parameter as (de)serialized: `nil` or a string. -/
inductive JParam where
  | null
  | str (s : String)
  deriving DecidableEq, Repr

/-- Item details: timestamp in epoch milliseconds. -/
structure Details where
  timestamp : Int
  sessionID : String
  user : String
  database : String
  deriving DecidableEq, Repr

/-- The item variants of `types.go`.  `execute` is the variant without a
`Handle` method, which the serializer's type switch does not cover. -/
inductive Item where
  | connect (d : Details)
  | disconnect (d : Details)
  | statement (d : Details) (query : String)
  | execute (d : Details) (query : String)
  | boundExecute (d : Details) (query : String) (params : List JParam)
  deriving DecidableEq, Repr

/-- Is this the serializer-unsupported pending-execute variant? -/
def Item.isExecute : Item → Bool
  | .execute _ _ => true
  | _ => false

/-- JSON fields of embedded `Details` (struct embedding flattens). -/
def encodeDetails (d : Details) : List (String × Json) :=
  [("timestamp", .num d.timestamp), ("session_id", .str d.sessionID),
   ("user", .str d.user), ("database", .str d.database)]

/-- One serialized parameter. -/
def encodeParam : JParam → Json
  | .null => .null
  | .str s => .str s

/-- The envelope `{"type": label, "item": body}`. -/
def envelope (label : String) (body : Json) : Json :=
  .obj [("type", .str label), ("item", body)]

/-- `ItemMarshalJSON`, body part: the four supported variants serialize
inside an envelope; anything else returns nil bytes and a nil error. -/
def encodeItem : Item → Option Json
  | .connect d => some (envelope "Connect" (.obj (encodeDetails d)))
  | .disconnect d => some (envelope "Disconnect" (.obj (encodeDetails d)))
  | .statement d q =>
    some (envelope "Statement" (.obj (encodeDetails d ++ [("query", .str q)])))
  | .boundExecute d q ps =>
    some (envelope "BoundExecute" (.obj (encodeDetails d ++
      [("query", .str q), ("parameters", .arr (ps.map encodeParam))])))
  | .execute _ _ => none

/-- `ItemMarshalJSON`: the marshalled bytes (as a JSON value) and the
error, both optional; the default branch of the type switch returns
`nil, nil`. -/
def ItemMarshalJSON (item : Item) : Option Json × Option String :=
  (encodeItem item, none)

/-- Field lookup in a JSON object body. -/
def getField (fields : List (String × Json)) (name : String) : Option Json :=
  match fields with
  | [] => none
  | (k, v) :: rest => if k = name then some v else getField rest name

/-- Decode a string-typed struct field: missing fields keep the zero
value (as `encoding/json` does), wrongly-typed fields are errors. -/
def getStr (fields : List (String × Json)) (name : String) : Except String String :=
  match getField fields name with
  | none => .ok ""
  | some (.str s) => .ok s
  | some _ => .error "cannot unmarshal into string field"

/-- Decode the timestamp field. -/
def getTime (fields : List (String × Json)) : Except String Int :=
  match getField fields "timestamp" with
  | none => .ok 0
  | some (.num n) => .ok n
  | some _ => .error "cannot unmarshal into time field"

/-- Decode `Details` from an object body. -/
def decodeDetails (fields : List (String × Json)) : Except String Details :=
  match getTime fields, getStr fields "session_id",
      getStr fields "user", getStr fields "database" with
  | .ok t, .ok s, .ok u, .ok db => .ok ⟨t, s, u, db⟩
  | .error e, _, _, _ => .error e
  | _, .error e, _, _ => .error e
  | _, _, .error e, _ => .error e
  | _, _, _, .error e => .error e

/-- Decode one parameter (an `interface{}` slot). -/
def decodeParam : Json → Except String JParam
  | .null => .ok .null
  | .str s => .ok (.str s)
  | _ => .error "unsupported parameter value"

/-- Decode a parameter array. -/
def decodeParams : List Json → Except String (List JParam)
  | [] => .ok []
  | j :: rest =>
    match decodeParam j, decodeParams rest with
    | .ok p, .ok ps => .ok (p :: ps)
    | .error e, _ => .error e
    | _, .error e => .error e

/-- `ItemUnmarshalJSON`: decode the envelope, dispatch on the type
label, and unmarshal the body into the corresponding variant. -/
def ItemUnmarshalJSON (payload : Json) : Except String Item :=
  match payload with
  | .obj env =>
    match getField env "type", getField env "item" with
    | some (.str label), some (.obj body) =>
      match label with
      | "Connect" =>
        match decodeDetails body with
        | .ok d => .ok (.connect d)
        | .error e => .error e
      | "Disconnect" =>
        match decodeDetails body with
        | .ok d => .ok (.disconnect d)
        | .error e => .error e
      | "Statement" =>
        match decodeDetails body, getStr body "query" with
        | .ok d, .ok q => .ok (.statement d q)
        | .error e, _ => .error e
        | _, .error e => .error e
      | "BoundExecute" =>
        match decodeDetails body, getStr body "query" with
        | .ok d, .ok q =>
          (match getField body "parameters" with
           | none => .ok (.boundExecute d q [])
           | some (.arr js) =>
             match decodeParams js with
             | .ok ps => .ok (.boundExecute d q ps)
             | .error e => .error e
           | some _ => .error "cannot unmarshal into parameters field")
        | .error e, _ => .error e
        | _, .error e => .error e
      | other => .error ("did not recognise type: " ++ other)
    | _, _ => .error "invalid envelope"
  | _ => .error "invalid payload"

end Ser

namespace PG

/-! ## The parameter grammar of the spec (for the ParseBindParameters claim)

`value := NULL | quoted body` where a body is any sequence of characters
in which every single quote belongs to a doubled `''` escape. -/

/-- A well-formed quoted body: character by character, where a quote may
only appear as the first half of a `''` pair. -/
def goodBody : List Char → Bool
  | [] => true
  | c :: rest =>
    if c = '\'' then
      match rest with
      | c2 :: rest2 => c2 = '\'' && goodBody rest2
      | [] => false
    else goodBody rest

/-- One parameter of the grammar: `$<digits> = NULL` (value `none`) or
`$<digits> = '<body>'` (value `some body`, body still escaped). -/
structure BindEntry where
  digits : List Char
  value : Option (List Char)
  deriving DecidableEq, Repr

/-- Grammar well-formedness of one entry: a nonempty digit label and a
well-formed body. -/
def wfEntry (e : BindEntry) : Bool :=
  e.digits.length ≠ 0 && e.digits.all Char.isDigit &&
    (match e.value with
     | none => true
     | some b => goodBody b)

/-- Rendering of a value. -/
def renderValue : Option (List Char) → List Char
  | none => "NULL".toList
  | some b => '\'' :: (b ++ ['\''])

/-- Rendering of one entry: `$<digits> = <value>`. -/
def renderEntry (e : BindEntry) : List Char :=
  '$' :: (e.digits ++ " = ".toList ++ renderValue e.value)

/-- Rendering of all entries after the first, each preceded by the
`, ` separator. -/
def renderTail : List BindEntry → List Char
  | [] => []
  | e :: rest => ", ".toList ++ renderEntry e ++ renderTail rest

/-- Rendering of a full parameter list per the grammar. -/
def renderParams : List BindEntry → List Char
  | [] => []
  | e :: rest => renderEntry e ++ renderTail rest

/-- The parameter an entry denotes: `NULL` is a null parameter, a body
is the string with the `''` escapes decoded. -/
def decodeEntry (e : BindEntry) : Param :=
  match e.value with
  | none => .null
  | some b => .str (unescapeQuotes b)

end PG

namespace Ser

/-! ## Serialization theorems -/

/-- Parameter lists decode back to themselves. -/
theorem decodeParams_map (ps : List JParam) :
    decodeParams (ps.map encodeParam) = .ok ps := by
  induction ps with
  | nil => rfl
  | cons p rest ih => cases p <;> simp [decodeParams, decodeParam, encodeParam, ih]

/-- C9: for every item of the four public variants (Connect, Statement,
BoundExecute, Disconnect), unmarshalling the result of marshalling it
yields an item equal to it: same variant tag, same timestamp (modelled
at millisecond precision), session id, user, database, and, for
Statement and BoundExecute, the same query and the same ordered
parameter list with nulls preserved. -/
theorem marshal_unmarshal_roundtrip (x : Item) (h : x.isExecute = false) :
    ∃ j, encodeItem x = some j ∧ ItemUnmarshalJSON j = .ok x := by
  cases x with
  | execute d q => simp [Item.isExecute] at h
  | connect d => exact ⟨_, rfl, rfl⟩
  | disconnect d => exact ⟨_, rfl, rfl⟩
  | statement d q => exact ⟨_, rfl, rfl⟩
  | boundExecute d q ps =>
    refine ⟨_, rfl, ?_⟩
    simp [ItemUnmarshalJSON, envelope, getField, decodeDetails, getTime, getStr,
      encodeDetails, decodeParams_map]

/-- C9 witness: the round trip evaluated on a concrete BoundExecute
with a null and a text parameter. -/
theorem marshal_unmarshal_roundtrip_witness :
    ∃ j, encodeItem (.boundExecute ⟨1551107307222, "5c7404eb.d6bd", "alice", "pgdb"⟩
        "select $1, $2" [.str "30", .null]) = some j ∧
      ItemUnmarshalJSON j = .ok (.boundExecute ⟨1551107307222, "5c7404eb.d6bd", "alice", "pgdb"⟩
        "select $1, $2" [.str "30", .null]) :=
  marshal_unmarshal_roundtrip _ rfl

/-- C10: the serializer's type switch has no case for a value that is
none of Connect, Statement, BoundExecute or Disconnect (modelled by the
`execute` variant, the one `Item` shape without a `Handle` method): the
default branch returns nil bytes together with a nil error, so the item
is silently dropped rather than reported as a serialization failure. -/
theorem marshal_unsupported_returns_nil_nil (d : Details) (q : String) :
    ItemMarshalJSON (.execute d q) = (none, none) := rfl

end Ser

namespace PG

/-! ## Duration-line and parameters-line theorems (stderr parser) -/

/-- C2: for a stderr log line whose message is a `LOG:  duration: N.N ms`
line, when a pending Execute exists for the line's session
`parseDetailToItem` emits it as a BoundExecute with that Execute's
details and query and an empty parameter list (the `Bind(nil)` path
allocates an empty, non-nil slice, modelled by `[]`) and removes the
pending entry; with no pending Execute it returns no item and no
error, leaving the map unchanged. -/
theorem duration_line_binds_pending (el : ExtractedLog) (m : UMap)
    (hdur : durationMatch el.message .errlog = true) :
    (∀ e : Exec, ulookup m el.details.sessionID = some e →
      parseDetailToItem el .errlog m =
        (.ok (some (.boundExecute e.details e.query [])),
          uerase m el.details.sessionID))
    ∧ (ulookup m el.details.sessionID = none →
      parseDetailToItem el .errlog m = (.ok none, m)) := by
  constructor
  · intro e he
    simp [parseDetailToItem, hdur, he, bindExec]
  · intro hn
    simp [parseDetailToItem, hdur, hn]

/-- C2 witness: a concrete `LOG:  duration: 0.043 ms` line, once with a
pending Execute for its session and once without. -/
theorem duration_line_binds_pending_witness :
    parseDetailToItem
      ⟨⟨"2018-06-04 13:00:52.366 UTC".toList, "s1".toList, "u".toList, "db".toList⟩,
        [], "LOG:  duration: 0.043 ms".toList, []⟩ .errlog
      [("s1".toList,
        ⟨⟨"2018-06-04 13:00:52.366 UTC".toList, "s1".toList, "u".toList, "db".toList⟩,
          "select 1".toList⟩)] =
      (.ok (some (.boundExecute
        ⟨"2018-06-04 13:00:52.366 UTC".toList, "s1".toList, "u".toList, "db".toList⟩
        "select 1".toList [])), [])
    ∧ parseDetailToItem
        ⟨⟨"2018-06-04 13:00:52.366 UTC".toList, "s1".toList, "u".toList, "db".toList⟩,
          [], "LOG:  duration: 0.043 ms".toList, []⟩ .errlog [] = (.ok none, []) := by
  refine ⟨((duration_line_binds_pending _ _ (by decide)).1
      ⟨⟨"2018-06-04 13:00:52.366 UTC".toList, "s1".toList, "u".toList, "db".toList⟩,
        "select 1".toList⟩ (by decide)).trans (by decide),
    (duration_line_binds_pending _ _ (by decide)).2 (by decide)⟩

/-- C8 counterexample: a genuine `DETAIL:  parameters: ` line with no
pending Execute for its session on which `parseDetailToItem` does *not*
return an error: because the statement pattern `^.*statement\: ` is
checked earlier and matches anywhere in the first line, a parameter
value containing `statement: ` makes the line classify as a Statement,
which is emitted as an item (with the untrimmed message as its query). -/
theorem unmatched_params_detail_counterexample :
    paramsMatch "DETAIL:  parameters: $1 = 'x statement: y'".toList .errlog = true
    ∧ ulookup ([] : UMap) "s1".toList = none
    ∧ parseDetailToItem
        ⟨⟨"2018-06-04 13:00:52.366 UTC".toList, "s1".toList, "u".toList, "db".toList⟩,
          [], "DETAIL:  parameters: $1 = 'x statement: y'".toList, []⟩ .errlog [] =
      (.ok (some (.statement
        ⟨"2018-06-04 13:00:52.366 UTC".toList, "s1".toList, "u".toList, "db".toList⟩
        "DETAIL:  parameters: $1 = 'x statement: y'".toList)), []) := by
  decide

/-- C8 amended: for a stderr `DETAIL:  parameters: ` line that does not
also match one of the earlier-checked statement/execute patterns,
arriving when no Execute is pending for its session,
`parseDetailToItem` returns an error and no item with the
pending-execute map unchanged; and the `ParseErrlog` loop surfaces any
per-line error on the error channel and keeps parsing the remaining
lines with the same map — the error is diagnostic, never fatal. -/
theorem unmatched_params_detail_is_error (el : ExtractedLog) (m : UMap)
    (hp : paramsMatch el.message .errlog = true)
    (hd : durationMatch el.message .errlog = false)
    (hs : statementMatch el.message .errlog = false)
    (hu : unnamedExecMatch el.message .errlog = false)
    (hn : namedExecMatch el.message .errlog = false)
    (hnone : ulookup m el.details.sessionID = none) :
    parseDetailToItem el .errlog m =
      (.error ("cannot process bind parameters without previous execute item: ".toList
        ++ el.message), m)
    ∧ ∀ (l : List Char) (ls : List (List Char)) (m0 : UMap) (e : List Char),
        ParseItem l m0 = (.error e, m0) →
        runErrlog (l :: ls) m0 =
          ((runErrlog ls m0).1, e :: (runErrlog ls m0).2.1, (runErrlog ls m0).2.2) := by
  constructor
  · simp [parseDetailToItem, hp, hd, hs, hu, hn, hnone]
  · intro l ls m0 e he
    simp [runErrlog, he]

/-- C8 witness: a concrete unmatched parameters DETAIL line, both at the
`parseDetailToItem` level and through the `ParseErrlog` loop. -/
theorem unmatched_params_detail_is_error_witness :
    parseDetailToItem
      ⟨⟨"2018-06-04 13:00:52.366 UTC".toList, "s1".toList, "u".toList, "db".toList⟩,
        [], "DETAIL:  parameters: $1 = 'x'".toList, []⟩ .errlog [] =
      (.error ("cannot process bind parameters without previous execute item: ".toList
        ++ "DETAIL:  parameters: $1 = 'x'".toList), [])
    ∧ runErrlog
        ["2018-06-04 13:00:52.366 UTC|u|db|s1|DETAIL:  parameters: $1 = 'x'".toList] [] =
      ([], [("cannot process bind parameters without previous execute item: ".toList
        ++ "DETAIL:  parameters: $1 = 'x'".toList)], []) := by
  have h := unmatched_params_detail_is_error
    ⟨⟨"2018-06-04 13:00:52.366 UTC".toList, "s1".toList, "u".toList, "db".toList⟩,
      [], "DETAIL:  parameters: $1 = 'x'".toList, []⟩ []
    (by decide) (by decide) (by decide) (by decide) (by decide) (by decide)
  exact ⟨h.1,
    (h.2 "2018-06-04 13:00:52.366 UTC|u|db|s1|DETAIL:  parameters: $1 = 'x'".toList [] []
      ("cannot process bind parameters without previous execute item: ".toList
        ++ "DETAIL:  parameters: $1 = 'x'".toList) (by decide)).trans (by decide)⟩

end PG

namespace Streamer

/-! ## Streamer theorems -/

/-- The producing loop only depends on the non-nil items, where it
truncates at the first item past `finish`. -/
theorem takePhase_eq_specTake (finish : Option Int) (l : List (Option SItem)) :
    takePhase finish l = specTake finish (nonNils l) := by
  induction l with
  | nil => cases finish <;> rfl
  | cons o rest ih =>
    cases o with
    | none => simpa [takePhase, nonNils] using ih
    | some it =>
      cases finish with
      | none => simpa [takePhase, nonNils, specTake] using ih
      | some f =>
        rcases lt_or_le f it.ts with hf | hf
        · simp [takePhase, nonNils, specTake, List.takeWhile, hf]
        · have hd : decide (f < it.ts) = false := decide_eq_false (not_lt.mpr hf)
          simp [takePhase, nonNils, specTake, List.takeWhile, hd, ih, not_lt.mpr hf]

/-- What the synchronous pre-filter leaves: the non-nil items strictly
after `start` are reached and then one more item is consumed. -/
theorem nonNils_dropUntilAfter (s : Int) (l : List (Option SItem)) :
    nonNils (dropUntilAfter s l) =
      ((nonNils l).dropWhile (fun it => !(s < it.ts))).drop 1 := by
  induction l with
  | nil => rfl
  | cons o rest ih =>
    cases o with
    | none => simpa [dropUntilAfter, nonNils] using ih
    | some it =>
      rcases lt_or_le s it.ts with hs | hs
      · simp [dropUntilAfter, nonNils, List.dropWhile, hs]
      · have hd : decide (s < it.ts) = false := decide_eq_false (not_lt.mpr hs)
        simp only [dropUntilAfter, nonNils, List.dropWhile,
          if_neg (not_lt.mpr hs), hd, Bool.not_false]
        exact ih

/-- C5 counterexample: with `start = 0` and a single non-nil input item
with timestamp `5 > start`, `Filter` produces nothing — the first item
with timestamp after `start` is consumed by the synchronous pre-filter
loop and discarded, not emitted as the claim states. -/
theorem filter_start_boundary_counterexample :
    Filter (some 0) none [some ⟨5, 0⟩] = [] ∧ (0 : Int) < 5 := by
  constructor
  · rfl
  · decide

/-- C5 amended: `Filter` discards every leading non-nil item with
timestamp `≤ start` *and additionally the first non-nil item with
timestamp `> start`* (consumed by the synchronous pre-filter), then
produces the remaining non-nil items in order until the first one with
timestamp `> finish` when `finish` is set; with no `start` the non-nil
items are produced from the beginning under the same `finish`
truncation. -/
theorem filter_window_semantics (s : Int) (finish : Option Int)
    (l : List (Option SItem)) :
    Filter (some s) finish l =
      specTake finish (((nonNils l).dropWhile (fun it => !(s < it.ts))).drop 1)
    ∧ Filter none finish l = specTake finish (nonNils l) := by
  constructor
  · rw [Filter, takePhase_eq_specTake, nonNils_dropUntilAfter]
  · rw [Filter, takePhase_eq_specTake]

/-- The sleep computed before the first emitted item is zero (the wall
clock is started at that item, and the code computes a zero diff). -/
theorem streamSleep_first_item (rate : ℚ) : streamSleep rate 0 0 = 0 := by
  simp [streamSleep]

/-- C6 counterexample: with rate `0.5`, one second of simulated elapsed
time and two seconds of wall-clock elapsed time (all in nanoseconds),
the claim's formula `((ts − first_ts) − w·r)/r` is zero — no sleep —
but the code computes its wall-elapsed term with
`time.Duration(rate) = 0` (float-to-integer truncation) and sleeps two
full seconds. -/
theorem stream_sleep_rate_counterexample :
    streamSleep (1/2 : ℚ) 1000000000 2000000000 = 2000000000
    ∧ claimSleep (1/2 : ℚ) 1000000000 2000000000 = 0 := by
  constructor
  · have h0 : durTrunc (1/2 : ℚ) = 0 := by
      norm_num [durTrunc, Int.floor_eq_zero_iff]
    rw [streamSleep]
    norm_num [h0]
  · norm_num [claimSleep]

/-- C6 amended: the code scales the wall-clock elapsed time by
`time.Duration(rate)` — the *integer truncation* of the rate — so the
claim's formula holds (up to the final truncation to whole nanoseconds)
exactly when the rate is an integer; in particular, with rate `2.0` and
items one second apart in log time, the second item is emitted no
earlier than half a second of wall-clock time after the first. -/
theorem stream_sleep_rate_semantics :
    (∀ r sim w : ℤ, 0 < r →
      streamSleep (r : ℚ) sim w = ⌊claimSleep (r : ℚ) sim w⌋)
    ∧ ∀ w : ℤ, 0 ≤ w → (500000000 : ℤ) ≤ w + streamSleep 2 1000000000 w := by
  constructor
  · intro r sim w hr
    have hrq : (0 : ℚ) < (r : ℚ) := by exact_mod_cast hr
    have htr : durTrunc (r : ℚ) = r := by simp [durTrunc]
    have hdq : ((sim - r * w : ℤ) : ℚ) = (sim : ℚ) - (w : ℚ) * (r : ℚ) := by
      push_cast; ring
    rw [streamSleep, claimSleep, htr]
    by_cases hpos : 0 < sim - r * w
    · have hq : (0 : ℚ) < (sim : ℚ) - (w : ℚ) * (r : ℚ) := by
        rw [← hdq]; exact_mod_cast hpos
      rw [if_pos hpos, if_pos hq, ← hdq]
    · have hq : ¬ (0 : ℚ) < (sim : ℚ) - (w : ℚ) * (r : ℚ) := by
        rw [← hdq]; exact_mod_cast hpos
      rw [if_neg hpos, if_neg hq]
      exact Int.floor_zero.symm
  · intro w hw
    rw [streamSleep]
    have htr : durTrunc (2 : ℚ) = 2 := by
      norm_num [durTrunc]
    rw [htr]
    by_cases hpos : (0 : ℤ) < 1000000000 - 2 * w
    · simp only [hpos, if_true]
      have : (500000000 - w : ℤ) ≤ ⌊((1000000000 - 2 * w : ℤ) : ℚ) / (2 : ℚ)⌋ := by
        rw [Int.le_floor]
        push_cast
        linarith
      linarith
    · simp only [hpos, if_false]
      omega

/-- C6 amended witness: the integer-rate agreement at rate 3 and the
rate-2 pacing bound at zero wall-elapsed time. -/
theorem stream_sleep_rate_semantics_witness :
    streamSleep (3 : ℚ) 7 1 = ⌊claimSleep (3 : ℚ) 7 1⌋
    ∧ (500000000 : ℤ) ≤ 0 + streamSleep 2 1000000000 0 := by
  refine ⟨?_, stream_sleep_rate_semantics.2 0 le_rfl⟩
  have h := stream_sleep_rate_semantics.1 3 7 1 (by norm_num)
  exact_mod_cast h

end Streamer

namespace PG

/-! ## ParseBindParameters: grammar correctness (C3) -/

/-- A string is a prefix of itself followed by anything. -/
theorem hasPref_append (p t : List Char) : hasPref p (p ++ t) = true := by
  induction p with
  | nil => rfl
  | cons c cs ih => simp [hasPref, ih]

/-- A maximal digit run followed by a non-digit is cut exactly. -/
theorem takeWhile_digits_append (ds t : List Char)
    (hds : ds.all Char.isDigit = true) (ht : (t.headD ' ').isDigit = false) :
    (ds ++ t).takeWhile Char.isDigit = ds := by
  induction ds with
  | nil =>
    cases t with
    | nil => rfl
    | cons c cs =>
      simp only [List.headD_cons] at ht
      simp [List.takeWhile_cons, ht]
  | cons d ds ih =>
    simp only [List.all_cons, Bool.and_eq_true] at hds
    simp [List.takeWhile_cons, hds.1, ih hds.2]

/-- `findClosingTag` on a well-formed body followed by the closing quote
finds exactly the closing quote: the doubled quotes inside the body are
skipped as escapes, and the character after the closing quote (if any)
is not a quote, so the closing quote is not mistaken for an escape. -/
theorem findClosingTag_goodBody (b tail : List Char) (hb : goodBody b = true)
    (ht : tail.headD ' ' ≠ '\'') :
    findClosingTag (b ++ '\'' :: tail) = some b.length := by
  induction b using goodBody.induct with
  | case1 =>
    cases tail with
    | nil => rfl
    | cons c2 t2 =>
      simp only [List.headD_cons] at ht
      simp [findClosingTag, ht]
  | case2 c2 rest2 ih =>
    by_cases hc2 : c2 = '\''
    · subst hc2
      have hgb : goodBody rest2 = true := by
        rw [goodBody.eq_def] at hb
        simpa using hb
      simp [findClosingTag, ih hgb, List.length_cons]
    · exfalso
      rw [goodBody.eq_def] at hb
      simp [hc2] at hb
  | case3 =>
    rw [goodBody.eq_def] at hb
    simp at hb
  | case4 c rest hc ih =>
    rw [goodBody.eq_def] at hb
    simp only [if_neg hc] at hb
    simp only [List.cons_append]
    rw [findClosingTag.eq_def]
    simp only [if_neg hc]
    simp [ih hb]

/-- The `\$\d+ = ` core matches the rendering of a grammar entry. -/
theorem paramPrefixCore_renderEntry (e : BindEntry) (tail : List Char)
    (he : wfEntry e = true) :
    paramPrefixCore (renderEntry e ++ tail) = some (e.digits.length + 4) := by
  obtain ⟨ds, v⟩ := e
  simp only [wfEntry, Bool.and_eq_true, decide_eq_true_eq] at he
  simp only [renderEntry, List.cons_append, List.append_assoc]
  rw [paramPrefixCore]
  rw [if_pos rfl]
  have htw : (ds ++ (" = ".toList ++ (renderValue v ++ tail))).takeWhile Char.isDigit
      = ds := by
    apply takeWhile_digits_append _ _ he.1.2
    rfl
  rw [htw]
  rw [List.drop_left, if_pos (hasPref_append _ _), if_neg he.1.1]
  congr 1
  omega

/-- `prefixMatcher` matches the rendering of a grammar entry. -/
theorem matchParamPrefix_renderEntry (e : BindEntry) (tail : List Char)
    (he : wfEntry e = true) :
    matchParamPrefix (renderEntry e ++ tail) = some (e.digits.length + 4) := by
  have hcore := paramPrefixCore_renderEntry e tail he
  have hne : e.digits ≠ [] := by
    intro h
    rw [wfEntry, h] at he
    simp at he
  obtain ⟨d, ds', hds⟩ := List.exists_cons_of_ne_nil hne
  have hshape : renderEntry e ++ tail
      = '$' :: d :: (ds' ++ " = ".toList ++ renderValue e.value ++ tail) := by
    rw [renderEntry, hds]
    simp
  rw [hshape, matchParamPrefix]
  rw [if_neg (show ¬('$' = ',' ∧ d = ' ') from by simp)]
  rw [← hshape]
  exact hcore

/-- Dropping the matched `\$\d+ = ` prefix of a rendered entry leaves
the rendered value. -/
theorem drop_renderEntry (e : BindEntry) (tail : List Char) :
    (renderEntry e ++ tail).drop (e.digits.length + 4)
      = renderValue e.value ++ tail := by
  obtain ⟨ds, v⟩ := e
  rw [show renderEntry ⟨ds, v⟩ ++ tail
    = (('$' :: ds) ++ " = ".toList) ++ (renderValue v ++ tail) by
      simp [renderEntry]]
  have h3 : (" = ".toList).length = 3 := rfl
  exact List.drop_left' (by
    simp only [List.length_append, List.length_cons, h3])

end PG

namespace PG


/-- `NULL` is not a prefix of a quoted value. -/
theorem hasPref_NULL_quote (xs : List Char) :
    hasPref ("NULL".toList) ('\'' :: xs) = false := by
  have hN : "NULL".toList = ['N', 'U', 'L', 'L'] := rfl
  rw [hN]
  simp [hasPref]

/-- The split function, on a rendered value at its matched offset,
produces the rendered value as the token and leaves the tail. -/
theorem bindSplitBody_value (data : List Char) (hne : data ≠ [])
    (advance : Nat) (v : Option (List Char)) (tail : List Char)
    (hp : matchParamPrefix data = some advance)
    (hd : data.drop advance = renderValue v ++ tail)
    (hv : v.elim True (fun b => goodBody b = true))
    (ht : tail.headD ' ' ≠ '\'') :
    bindParametersSplitFunc data = .tok (renderValue v) tail := by
  obtain ⟨c, cs, rfl⟩ := List.exists_cons_of_ne_nil hne
  rw [bindParametersSplitFunc, hp]
  case x_1 => simp
  cases v with
  | none =>
    simp only [renderValue] at hd ⊢
    have hpref : hasPref ("NULL".toList) (List.drop advance (c :: cs)) = true := by
      rw [hd]
      exact hasPref_append _ _
    rw [hpref, if_pos rfl]
    have h8 : List.drop (advance + 4) (c :: cs) = tail := by
      have h := congrArg (List.drop 4) hd
      rw [List.drop_drop] at h
      rw [h]
      exact List.drop_left' rfl
    rw [h8]
  | some b =>
    simp only [renderValue] at hd ⊢
    simp only [Option.elim] at hv
    have hdc : List.drop advance (c :: cs) = '\'' :: ((b ++ ['\'']) ++ tail) := by
      rw [hd]
      simp
    have hd1 : List.drop (advance + 1) (c :: cs) = b ++ '\'' :: tail := by
      have h := congrArg (List.drop 1) hdc
      rw [List.drop_drop] at h
      rw [h]
      simp
    have hpref : hasPref ("NULL".toList) (List.drop advance (c :: cs)) = false := by
      rw [hdc]
      exact hasPref_NULL_quote _
    have hfind : findClosingTag (List.drop (advance + 1) (c :: cs)) = some b.length := by
      rw [hd1]
      exact findClosingTag_goodBody b tail hv ht
    rw [hpref]
    simp only [Bool.false_eq_true, if_false]
    rw [hfind]
    have htok : (List.drop advance (c :: cs)).take (2 + b.length)
        = '\'' :: (b ++ ['\'']) := by
      rw [hd]
      exact List.take_left' (by
        simp only [List.length_cons, List.length_append, List.length_nil]
        omega)
    have hrest : List.drop (advance + 2 + b.length) (c :: cs) = tail := by
      have h := congrArg (List.drop (2 + b.length)) hd
      rw [List.drop_drop] at h
      rw [show advance + 2 + b.length = advance + (2 + b.length) from by omega]
      rw [h]
      exact List.drop_left' (by
        simp only [List.length_cons, List.length_append, List.length_nil]
        omega)
    show BindSplit.tok ((List.drop advance (c :: cs)).take (2 + b.length))
        (List.drop (advance + 2 + b.length) (c :: cs))
      = BindSplit.tok ('\'' :: (b ++ ['\''])) tail
    rw [htok, hrest]

/-- The split function on the rendering of a well-formed entry. -/
theorem bindSplit_renderEntry (e : BindEntry) (tail : List Char)
    (he : wfEntry e = true) (ht : tail.headD ' ' ≠ '\'') :
    bindParametersSplitFunc (renderEntry e ++ tail)
      = .tok (renderValue e.value) tail := by
  apply bindSplitBody_value _ (by simp [renderEntry]) (e.digits.length + 4)
  · exact matchParamPrefix_renderEntry e tail he
  · exact drop_renderEntry e tail
  · cases hv : e.value with
    | none => exact trivial
    | some b =>
      simp only [Option.elim]
      obtain ⟨ds, v⟩ := e
      simp only at hv
      subst hv
      simp only [wfEntry, Bool.and_eq_true] at he
      exact he.2
  · exact ht

/-- The split function on a `, `-prefixed rendering of a well-formed
entry (every entry after the first). -/
theorem bindSplit_renderEntry_comma (e : BindEntry) (tail : List Char)
    (he : wfEntry e = true) (ht : tail.headD ' ' ≠ '\'') :
    bindParametersSplitFunc (',' :: ' ' :: (renderEntry e ++ tail))
      = .tok (renderValue e.value) tail := by
  apply bindSplitBody_value _ (by simp) (e.digits.length + 6)
  · rw [matchParamPrefix]
    rw [if_pos ⟨rfl, rfl⟩]
    rw [paramPrefixCore_renderEntry e tail he]
  · rw [show e.digits.length + 6 = (e.digits.length + 4) + 1 + 1 from by omega]
    rw [List.drop_succ_cons, List.drop_succ_cons]
    exact drop_renderEntry e tail
  · cases hv : e.value with
    | none => exact trivial
    | some b =>
      simp only [Option.elim]
      obtain ⟨ds, v⟩ := e
      simp only at hv
      subst hv
      simp only [wfEntry, Bool.and_eq_true] at he
      exact he.2
  · exact ht

/-- The tail rendering never starts with a quote. -/
theorem renderTail_headD (r : List BindEntry) :
    (renderTail r).headD ' ' ≠ '\'' := by
  cases r with
  | nil => simp [renderTail]
  | cons e rest =>
    rw [show renderTail (e :: rest)
      = ',' :: (' ' :: (renderEntry e ++ renderTail rest)) from rfl]
    simp

/-- Stripping a rendered value gives the decoded parameter. -/
theorem tokenToParam_renderValue (v : Option (List Char)) :
    tokenToParam (renderValue v)
      = (match v with
         | none => Param.null
         | some b => Param.str (unescapeQuotes b)) := by
  cases v with
  | none => rfl
  | some b =>
    rw [tokenToParam]
    rw [if_neg (by
      simp only [renderValue]
      have hN : "NULL".toList = ['N', 'U', 'L', 'L'] := rfl
      rw [hN]
      intro h
      cases h)]
    simp only [renderValue]
    have hdrop : (('\'' :: (b ++ ['\''])) : List Char).drop 1 = b ++ ['\''] := rfl
    have hlen : (('\'' :: (b ++ ['\''])) : List Char).length = b.length + 2 := by
      simp
    rw [hdrop, hlen]
    rw [show b.length + 2 - 2 = b.length from by omega]
    rw [List.take_left' rfl]

/-- The scan loop consumes a rendered tail (entries each preceded by
`, `) into the decoded parameters, for any sufficient fuel. -/
theorem parseBindLoop_renderTail (r : List BindEntry) :
    ∀ fuel : Nat, (∀ e ∈ r, wfEntry e = true) →
      (renderTail r).length < fuel →
      parseBindLoop fuel (renderTail r) = .ok (r.map decodeEntry) := by
  induction r with
  | nil =>
    intro fuel _ hf
    match fuel, hf with
    | fuel + 1, _ => rfl
  | cons e rest ih =>
    intro fuel hwf hf
    match fuel, hf with
    | fuel + 1, hf =>
      have hsplit := bindSplit_renderEntry_comma e (renderTail rest)
        (hwf e (by simp)) (renderTail_headD rest)
      rw [show renderTail (e :: rest)
        = ',' :: ' ' :: (renderEntry e ++ renderTail rest) from rfl]
      rw [parseBindLoop]
      rw [hsplit]
      have hlen2 : (renderTail (e :: rest)).length
          = 2 + (renderEntry e).length + (renderTail rest).length := by
        rw [show renderTail (e :: rest)
          = ',' :: ' ' :: (renderEntry e ++ renderTail rest) from rfl]
        simp only [List.length_cons, List.length_append]
        omega
      have hrec : parseBindLoop fuel (renderTail rest)
          = .ok (rest.map decodeEntry) := by
        apply ih fuel (fun x hx => hwf x (by simp [hx]))
        rw [hlen2] at hf
        omega
      simp only [hrec, tokenToParam_renderValue, List.map_cons, decodeEntry]

end PG

namespace PG

/-- C3: for every input conforming to the parameter grammar,
`ParseBindParameters` preserves order and maps each `$N = NULL` to a
null parameter and each `$N = '<body>'` to the body with every `''`
escape decoded to a single quote (a `''` pair inside the body is never
taken as the closing quote — see `findClosingTag_goodBody`); the empty
input yields an empty list, and the spec's boundary cases evaluate as
stated. -/
theorem parse_bind_parameters_grammar :
    (∀ entries : List BindEntry, (∀ e ∈ entries, wfEntry e = true) →
      ParseBindParameters (renderParams entries) = .ok (entries.map decodeEntry))
    ∧ ParseBindParameters [] = .ok []
    ∧ ParseBindParameters ("$1 = 'hel''lo'".toList) = .ok [.str ("hel'lo".toList)]
    ∧ ParseBindParameters ("$2 = NULL".toList) = .ok [.null]
    ∧ ParseBindParameters ("$1 = 'hello', $2 = 'world'".toList)
        = .ok [.str ("hello".toList), .str ("world".toList)] := by
  refine ⟨?_, by decide, by decide, by decide, by decide⟩
  intro entries hwf
  cases entries with
  | nil => rfl
  | cons e rest =>
    rw [ParseBindParameters]
    rw [show renderParams (e :: rest) = renderEntry e ++ renderTail rest from rfl]
    have hsplit := bindSplit_renderEntry e (renderTail rest)
      (hwf e (by simp)) (renderTail_headD rest)
    have hrec : parseBindLoop ((renderEntry e ++ renderTail rest).length)
        (renderTail rest) = .ok (rest.map decodeEntry) := by
      apply parseBindLoop_renderTail rest _ (fun x hx => hwf x (by simp [hx]))
      have h1 : 1 ≤ (renderEntry e).length := by
        rw [renderEntry]
        simp
      simp only [List.length_append]
      omega
    rw [parseBindLoop]
    simp only [hsplit, hrec, tokenToParam_renderValue, List.map_cons, decodeEntry]

/-- C3 witness: the universal grammar statement applied to the concrete
two-entry list `$1 = 'hel''lo', $2 = NULL`. -/
theorem parse_bind_parameters_grammar_witness :
    ParseBindParameters (renderParams
      [⟨"1".toList, some ("hel''lo".toList)⟩, ⟨"2".toList, none⟩])
      = .ok [.str ("hel'lo".toList), .null] :=
  (parse_bind_parameters_grammar.1 _ (by decide)).trans (by decide)

end PG

namespace PG

/-- C4: a CSV record whose message is classified as an
`execute <unnamed>:` or `execute <name>:` line yields a BoundExecute
immediately — the pending-execute map is returned unchanged — with the
query equal to the message text after the matched execute prefix and
the parameters parsed from field 14 (and an empty parameter list when
field 14 is empty). -/
theorem csv_execute_immediate_bound
    (fields : List (List Char)) (m : UMap) (ps : List Param)
    (hlen : ¬ fields.length < 15)
    (hts : validTimestamp (fields.getD 0 []) = true)
    (hdur : durationMatch (fields.getD 13 []) .csv = false)
    (hstmt : statementMatch (fields.getD 13 []) .csv = false)
    (hparams : ParseBindParameters (renderParamsCsv (fields.getD 14 [])) = .ok ps) :
    (unnamedExecMatch (fields.getD 13 []) .csv = true →
      ParseCsvItem fields m =
        (.ok (some (.boundExecute
          ⟨fields.getD 0 [], fields.getD 5 [], fields.getD 1 [], fields.getD 2 []⟩
          (renderQueryCsvDotStar unnamedExecAt (fields.getD 13 [])) ps)), m))
    ∧ (unnamedExecMatch (fields.getD 13 []) .csv = false →
       namedExecMatch (fields.getD 13 []) .csv = true →
      ParseCsvItem fields m =
        (.ok (some (.boundExecute
          ⟨fields.getD 0 [], fields.getD 5 [], fields.getD 1 [], fields.getD 2 []⟩
          (renderQueryCsvDotStar namedExecAt (fields.getD 13 [])) ps)), m))
    ∧ (fields.getD 14 [] = [] → ps = []) := by
  refine ⟨?_, ?_, ?_⟩
  · intro hu
    rw [ParseCsvItem, if_neg hlen]
    rw [hts]
    simp only [Bool.not_true, Bool.false_eq_true, if_false]
    simp only [List.getD, List.get?_eq_getElem?] at hdur hstmt hu hparams
    simp [parseDetailToItem, hdur, hstmt, hu, hparams, bindExec]
  · intro hu hn
    rw [ParseCsvItem, if_neg hlen]
    rw [hts]
    simp only [Bool.not_true, Bool.false_eq_true, if_false]
    simp only [List.getD, List.get?_eq_getElem?] at hdur hstmt hu hn hparams
    simp [parseDetailToItem, hdur, hstmt, hu, hn, hparams, bindExec]
  · intro h14
    rw [h14] at hparams
    have : ParseBindParameters (renderParamsCsv []) = .ok [] := by decide
    rw [this] at hparams
    exact (Except.ok.injEq _ _).mp hparams.symm

/-- C4 witness: the spec's CSV scenario — a record whose message is
`duration: 0.029 ms  execute <unnamed>: SELECT 1 FROM t WHERE x=$1 AND
y=$2 LIMIT $3` with inline parameters in field 14. -/
theorem csv_execute_immediate_bound_witness :
    ParseCsvItem
      ["2023-06-09 01:50:01.825 UTC".toList, "postgres".toList, "postgres".toList,
        [], [], "64828549.7698".toList, [], [], [], [], [], "LOG".toList, [],
        "duration: 0.029 ms  execute <unnamed>: SELECT 1 FROM t WHERE x=$1 AND y=$2 LIMIT $3".toList,
        "parameters: $1 = '1072', $2 = 'f', $3 = '1'".toList] [] =
      (.ok (some (.boundExecute
        ⟨"2023-06-09 01:50:01.825 UTC".toList, "64828549.7698".toList,
          "postgres".toList, "postgres".toList⟩
        "SELECT 1 FROM t WHERE x=$1 AND y=$2 LIMIT $3".toList
        [.str "1072".toList, .str "f".toList, .str "1".toList])), []) := by
  refine ((csv_execute_immediate_bound _ [] [.str "1072".toList, .str "f".toList, .str "1".toList]
    (by decide) (by decide) (by decide) (by decide) (by decide)).1 (by decide)).trans ?_
  decide

end PG

namespace Scanner

open PG (idxOf? trimSpace replaceNlTab)

/-! ## Scanner theorems -/

/-- A failed newline search means no newline anywhere in the list. -/
theorem idxOf?_none_getD {c : Char} {l : List Char}
    (h : idxOf? c l = none) : ∀ i, i < l.length → l.getD i ' ' ≠ c := by
  induction l with
  | nil => intro i hi; simp at hi
  | cons x xs ih =>
    intro i hi
    rw [idxOf?] at h
    by_cases hx : x = c
    · simp [hx] at h
    · rw [if_neg hx] at h
      have h' : idxOf? c xs = none := Option.map_eq_none.mp h
      cases i with
      | zero => simpa using hx
      | succ j =>
        simp only [List.getD_cons_succ]
        exact ih h' j (by simpa using hi)

/-- A successful newline search yields the first occurrence. -/
theorem idxOf?_some_getD {c : Char} {l : List Char} {off : Nat}
    (h : idxOf? c l = some off) :
    off < l.length ∧ l.getD off ' ' = c ∧
      ∀ i, i < off → l.getD i ' ' ≠ c := by
  induction l generalizing off with
  | nil => simp [idxOf?] at h
  | cons x xs ih =>
    rw [idxOf?] at h
    by_cases hx : x = c
    · simp only [if_pos hx, Option.some.injEq] at h
      subst h
      exact ⟨by simp, by simpa using hx, by omega⟩
    · rw [if_neg hx] at h
      obtain ⟨m, hm, rfl⟩ := Option.map_eq_some'.mp h
      obtain ⟨h1, h2, h3⟩ := ih hm
      refine ⟨by simpa using h1, by simpa using h2, ?_⟩
      intro i hi
      cases i with
      | zero => simpa using hx
      | succ j =>
        simp only [List.getD_cons_succ]
        exact h3 j (by omega)

/-- Indexing into the scan window `data[a : len-1]` is indexing into
`data`. -/
theorem window_getD (data : List Char) (a i : Nat)
    (h : a + i < data.length - 1) :
    (data.dropLast.drop a).getD i ' ' = data.getD (a + i) ' ' := by
  have hlt : a + i < data.dropLast.length := by
    simpa [List.length_dropLast] using h
  have h2 : a + i < data.length := by omega
  rw [List.getD, List.getD, List.get?_eq_getElem?, List.get?_eq_getElem?]
  rw [List.getElem?_drop]
  rw [List.getElem?_eq_getElem hlt, List.getElem?_eq_getElem h2]
  simp [List.getElem_dropLast]

/-- The scan window has length `len - 1 - a`. -/
theorem window_length (data : List Char) (a : Nat) :
    (data.dropLast.drop a).length = data.length - 1 - a := by
  simp [List.length_dropLast]

/-- `findGoodTerm` is stable across a stretch of non-terminators. -/
theorem findGoodTerm_congr (data : List Char) :
    ∀ n a b, b - a ≤ n → a ≤ b →
      (∀ j, a ≤ j → j < b → goodTerm data j = false) →
      findGoodTerm data a = findGoodTerm data b := by
  intro n
  induction n with
  | zero =>
    intro a b h1 h2 _
    have : a = b := by omega
    rw [this]
  | succ n ih =>
    intro a b h1 h2 hng
    by_cases hab : a = b
    · rw [hab]
    · have hlt : a < b := by omega
      have hstep : findGoodTerm data a = findGoodTerm data (a + 1) := by
        rw [findGoodTerm]
        by_cases ha : a < data.length
        · rw [if_pos ha, hng a le_rfl hlt]
          simp
        · rw [if_neg ha]
          rw [findGoodTerm]
          rw [if_neg (by omega)]
      rw [hstep]
      exact ih (a + 1) b (by omega) (by omega) (fun j hj1 hj2 => hng j (by omega) hj2)

/-- Past the end there is no terminator. -/
theorem findGoodTerm_stop (data : List Char) (a : Nat) (h : ¬ a < data.length) :
    findGoodTerm data a = none := by
  rw [findGoodTerm, if_neg h]

/-- A terminator at the current position is found. -/
theorem findGoodTerm_here (data : List Char) (a : Nat) (h : a < data.length)
    (hg : goodTerm data a = true) : findGoodTerm data a = some a := by
  rw [findGoodTerm, if_pos h, hg]
  simp

end Scanner

namespace Scanner

/-- The scan loop of `logLineSplitFunc` computes exactly: advance past
the first record terminator; failing that, consume everything at EOF
and request more input otherwise. -/
theorem splitLoopGo_spec (data : List Char) (atEOF : Bool) (a : Nat) :
    splitLoopGo data atEOF a (data.dropLast.drop a)
      = (match findGoodTerm data a with
         | some j => some (j + 1)
         | none => if atEOF then some data.length else none) := by
  rw [splitLoopGo.eq_def]
  split
  next hidx =>
    have hnl := idxOf?_none_getD hidx
    have hng : ∀ j, a ≤ j → j < data.length → goodTerm data j = false := by
      intro j hj1 hj2
      by_cases hw : j < data.length - 1
      · have hx := hnl (j - a) (by rw [window_length]; omega)
        rw [window_getD data a (j - a) (by omega)] at hx
        rw [show a + (j - a) = j from by omega] at hx
        simp [goodTerm, List.getD, List.get?_eq_getElem?] at hx ⊢
        intro hcontra
        exact absurd hcontra hx
      · have hj1lt : ¬ (j + 1 < data.length) := by omega
        simp [goodTerm, hj1lt]
    have hfind : findGoodTerm data a = none := by
      by_cases ha : a ≤ data.length
      · rw [findGoodTerm_congr data (data.length - a) a data.length (by omega) ha
          (fun j h1 h2 => hng j h1 h2)]
        exact findGoodTerm_stop data data.length (by omega)
      · exact findGoodTerm_stop data a (by omega)
    rw [hfind]
  next off hidx =>
    obtain ⟨hofflt, hoffc, hoffmin⟩ := idxOf?_some_getD hidx
    rw [window_length] at hofflt
    have hj : a + off < data.length - 1 := by omega
    have hlen1 : 1 ≤ data.length := by omega
    have hnl : data.getD (a + off) ' ' = '\n' := by
      rw [← window_getD data a off hj]
      exact hoffc
    have hmin : ∀ j, a ≤ j → j < a + off → goodTerm data j = false := by
      intro j hj1 hj2
      by_cases hw : j < data.length - 1
      · have hx := hoffmin (j - a) (by omega)
        rw [window_getD data a (j - a) (by omega)] at hx
        rw [show a + (j - a) = j from by omega] at hx
        simp [goodTerm, List.getD, List.get?_eq_getElem?] at hx ⊢
        intro hcontra
        exact absurd hcontra hx
      · have hj1lt : ¬ (j + 1 < data.length) := by omega
        simp [goodTerm, hj1lt]
    split
    next hcond =>
      have hgood : goodTerm data (a + off) = true := by
        have hsucc : a + off + 1 < data.length := by omega
        simp [goodTerm, List.getD, List.get?_eq_getElem?] at hnl ⊢
        simp only [List.getD, List.get?_eq_getElem?] at hcond
        exact ⟨⟨⟨hnl, hsucc⟩, hcond.1⟩, hcond.2⟩
      rw [findGoodTerm_congr data off a (a + off) (by omega) (by omega) hmin]
      rw [findGoodTerm_here data (a + off) (by omega) hgood]
    next hcond =>
      rw [not_and_or] at hcond
      have hbad : goodTerm data (a + off) = false := by
        rcases hcond with hc | hc
        · rw [not_not] at hc
          simp [goodTerm, List.getD, List.get?_eq_getElem?] at hc ⊢
          intro _ _ hcontra
          exact absurd hc hcontra
        · rw [not_not] at hc
          simp [goodTerm, hc]
      have hrw : (data.dropLast.drop a).drop (off + 1)
          = data.dropLast.drop (a + off + 1) := by
        rw [List.drop_drop]
        congr 1
      rw [hrw, splitLoopGo_spec data atEOF (a + off + 1)]
      have hcongr : findGoodTerm data a = findGoodTerm data (a + off + 1) := by
        apply findGoodTerm_congr data (off + 1) a (a + off + 1) (by omega) (by omega)
        intro j h1 h2
        by_cases hja : j < a + off
        · exact hmin j h1 hja
        · rw [show j = a + off from by omega]
          exact hbad
      rw [hcongr]
termination_by data.length - a
decreasing_by omega

/-- C7 amended (shared equivalence): `logLineSplitFunc` computes the
split the claim describes once the terminator condition also requires
the consumed prefix not to be entirely whitespace. -/
theorem logLineSplit_spec_equiv (data : List Char) (atEOF : Bool) :
    logLineSplitFunc data atEOF = logLineSplitSpec data atEOF := by
  rw [logLineSplitFunc, logLineSplitSpec]
  by_cases h0 : atEOF ∧ data = []
  · rw [if_pos h0, if_pos h0]
  · rw [if_neg h0, if_neg h0]
    have hloop := splitLoopGo_spec data atEOF 0
    rw [List.drop_zero] at hloop
    rw [splitLoop, hloop]
    cases hf : findGoodTerm data 0 with
    | some j => rfl
    | none =>
      cases atEOF with
      | true => simp [List.take_length]
      | false => rfl

end Scanner

namespace Scanner

/-- C7 counterexample: in the buffer `"\na\nX"` the byte immediately
following the first newline is `a`, not a tab, yet the split function
does not terminate a record at that newline (which would emit advance 1
with an empty token): the data consumed so far is all whitespace, so
the loop folds the leading newline into the next record and emits
advance 3 with token `a`.  The claim's iff (terminator ⟺ next byte is
not a tab) therefore fails without a whitespace proviso. -/
theorem logLineSplit_whitespace_counterexample :
    logLineSplitFunc ('\n' :: 'a' :: '\n' :: 'X' :: []) false = .emit 3 ['a']
    ∧ ('\n' :: 'a' :: '\n' :: 'X' :: []).getD 1 ' ' ≠ '\t' := by
  constructor
  · simp [logLineSplitFunc, splitLoop, splitLoopGo, PG.idxOf?, PG.trimSpace,
      PG.trimLeft, PG.replaceNlTab, PG.isSpaceChar]
  · decide

end Scanner

namespace PG

/-! ## Map bookkeeping lemmas for the Execute life-cycle accounting -/


/-- A session absent from the key list is not found. -/
theorem ixlookup_eq_none_of_not_mem (m : IxMap) (s : List Char)
    (h : s ∉ m.map Prod.fst) : ixlookup m s = none := by
  induction m with
  | nil => rfl
  | cons kv rest ih =>
    simp only [List.map_cons, List.mem_cons, not_or] at h
    rw [ixlookup]
    rw [if_neg (fun hk => h.1 hk.symm)]
    exact ih h.2

/-- Erasing a session not in the map is the identity. -/
theorem ixerase_of_lookup_none (m : IxMap) (s : List Char)
    (h : ixlookup m s = none) : ixerase m s = m := by
  induction m with
  | nil => rfl
  | cons kv rest ih =>
    rw [ixlookup] at h
    by_cases hk : kv.1 = s
    · rw [if_pos hk] at h
      cases h
    · rw [if_neg hk] at h
      rw [ixerase, if_neg hk, ih h]

/-- The erased session is gone from the key list. -/
theorem not_mem_keys_ixerase (m : IxMap) (s : List Char) :
    s ∉ (ixerase m s).map Prod.fst := by
  induction m with
  | nil => simp [ixerase]
  | cons kv rest ih =>
    rw [ixerase]
    by_cases hk : kv.1 = s
    · rw [if_pos hk]
      exact ih
    · rw [if_neg hk]
      simp only [List.map_cons, List.mem_cons, not_or]
      exact ⟨fun hs => hk hs.symm, ih⟩

/-- The keys of an erasure are a subset of the original keys. -/
theorem mem_keys_ixerase (m : IxMap) (s t : List Char)
    (h : t ∈ (ixerase m s).map Prod.fst) : t ∈ m.map Prod.fst := by
  induction m with
  | nil => simpa [ixerase] using h
  | cons kv rest ih =>
    rw [ixerase] at h
    by_cases hk : kv.1 = s
    · rw [if_pos hk] at h
      simp only [List.map_cons, List.mem_cons]
      exact Or.inr (ih h)
    · rw [if_neg hk] at h
      simp only [List.map_cons, List.mem_cons] at h ⊢
      rcases h with h | h
      · exact Or.inl h
      · exact Or.inr (ih h)

/-- Erasure preserves key distinctness. -/
theorem keysNodup_ixerase (m : IxMap) (s : List Char) (h : keysNodup m) :
    keysNodup (ixerase m s) := by
  induction m with
  | nil => exact h
  | cons kv rest ih =>
    rw [keysNodup, List.map_cons, List.nodup_cons] at h
    rw [ixerase]
    by_cases hk : kv.1 = s
    · rw [if_pos hk]
      exact ih h.2
    · rw [if_neg hk]
      rw [keysNodup, List.map_cons, List.nodup_cons]
      exact ⟨fun hmem => h.1 (mem_keys_ixerase rest s kv.1 hmem), ih h.2⟩

/-- Counting pending origins across a cons cell. -/
theorem countPend_cons (o : Nat) (s : List Char) (i : Nat) (e : Exec)
    (m : IxMap) :
    countPend o ((s, (i, e)) :: m)
      = (if i = o then 1 else 0) + countPend o m := by
  by_cases hio : i = o
  · simp [countPend, List.filter_cons, hio]
    omega
  · simp [countPend, List.filter_cons, hio]

/-- Erasing the found session removes exactly its origin from the
pending count (keys are distinct). -/
theorem countPend_ixerase (m : IxMap) (s : List Char) (v : Nat × Exec)
    (o : Nat) (hnd : keysNodup m) (hl : ixlookup m s = some v) :
    countPend o (ixerase m s) + (if v.1 = o then 1 else 0) = countPend o m := by
  induction m with
  | nil => cases hl
  | cons kv rest ih =>
    obtain ⟨k, i, e⟩ := kv
    rw [keysNodup, List.map_cons, List.nodup_cons] at hnd
    rw [ixlookup] at hl
    rw [ixerase]
    by_cases hk : (k, (i, e)).1 = s
    · rw [if_pos hk] at hl ⊢
      cases hl
      have hnone : ixlookup rest s = none := by
        apply ixlookup_eq_none_of_not_mem
        intro hmem
        apply hnd.1
        rw [show (k, (i, e)).1 = k from rfl] at hk
        rw [hk]
        exact hmem
      rw [ixerase_of_lookup_none rest s hnone]
      rw [countPend_cons]
      rw [show ((i, e).1 : Nat) = i from rfl]
      omega
    · rw [if_neg hk] at hl ⊢
      rw [countPend_cons, countPend_cons]
      have := ih hnd.2 hl
      omega

end PG

namespace PG


/-- A found session is among the keys. -/
theorem mem_keys_of_ixlookup_some (m : IxMap) (s : List Char) (v : Nat × Exec)
    (h : ixlookup m s = some v) : s ∈ m.map Prod.fst := by
  induction m with
  | nil => cases h
  | cons kv rest ih =>
    rw [ixlookup] at h
    by_cases hk : kv.1 = s
    · simp only [List.map_cons, List.mem_cons]
      exact Or.inl hk.symm
    · rw [if_neg hk] at h
      simp only [List.map_cons, List.mem_cons]
      exact Or.inr (ih h)

set_option maxHeartbeats 1000000 in
/-- One instrumented parse step balances the Execute ledger: emitted
origin + newly dropped + still pending = newly stored (relative to the
previous state); key distinctness is preserved; the stored list gains
at most the current line index. -/
theorem parseDetailToItemIx_balance (el : ExtractedLog) (i : Nat) (st : IxState)
    (o : Nat) (hnd : keysNodup st.unbounds) :
    (countRes o (parseDetailToItemIx el i st).1
        + List.count o (parseDetailToItemIx el i st).2.dropped
        + countPend o (parseDetailToItemIx el i st).2.unbounds
        + List.count o st.stored
      = List.count o (parseDetailToItemIx el i st).2.stored
        + List.count o st.dropped + countPend o st.unbounds)
    ∧ keysNodup (parseDetailToItemIx el i st).2.unbounds
    ∧ ((parseDetailToItemIx el i st).2.stored = i :: st.stored
        ∨ (parseDetailToItemIx el i st).2.stored = st.stored) := by
  rw [parseDetailToItemIx]
  split_ifs with h1 h2 h3 h4 h5 h6 h7 h8 h9 h10
  -- duration
  · cases hl : ixlookup st.unbounds el.details.sessionID with
    | none =>
      refine ⟨?_, ?_, ?_⟩
      · simp only [hl]
        dsimp only [countRes]
        omega
      · simp only [hl]
        exact hnd
      · simp [hl]
    | some v =>
      obtain ⟨o0, e0⟩ := v
      have hbal := countPend_ixerase st.unbounds el.details.sessionID (o0, e0) o hnd hl
      rw [show ((o0, e0).1 : Nat) = o0 from rfl] at hbal
      refine ⟨?_, ?_, ?_⟩
      · simp only [hl]
        dsimp only [countRes]
        by_cases ho : o0 = o
        · rw [if_pos ho] at hbal ⊢
          omega
        · rw [if_neg ho] at hbal ⊢
          omega
      · simp only [hl]
        exact keysNodup_ixerase _ _ hnd
      · simp [hl]
  -- statement
  · exact ⟨by dsimp only [countRes]; omega, hnd, Or.inr rfl⟩
  -- execute <unnamed>
  · refine ⟨?_, ?_, ?_⟩
    · dsimp only [ixstore, countRes]
      rw [countPend_cons, List.count_cons]
      simp only [beq_iff_eq]
      cases hl : ixlookup st.unbounds el.details.sessionID with
      | none =>
        dsimp only
        rw [ixerase_of_lookup_none _ _ hl]
        by_cases hio : i = o
        · rw [if_pos hio]
          omega
        · rw [if_neg hio]
          omega
      | some v =>
        obtain ⟨o0, e0⟩ := v
        have hbal := countPend_ixerase st.unbounds el.details.sessionID (o0, e0) o hnd hl
        rw [show ((o0, e0).1 : Nat) = o0 from rfl] at hbal
        dsimp only
        rw [List.count_cons]
        simp only [beq_iff_eq]
        by_cases hio : i = o <;> by_cases ho : o0 = o
        · rw [if_pos ho] at hbal
          rw [if_pos ho, if_pos hio]
          omega
        · rw [if_neg ho] at hbal
          rw [if_neg ho, if_pos hio]
          omega
        · rw [if_pos ho] at hbal
          rw [if_pos ho, if_neg hio]
          omega
        · rw [if_neg ho] at hbal
          rw [if_neg ho, if_neg hio]
          omega
    · dsimp only [ixstore]
      exact List.Nodup.cons (not_mem_keys_ixerase _ _) (keysNodup_ixerase _ _ hnd)
    · dsimp only [ixstore]
      exact Or.inl rfl
  -- execute name
  · refine ⟨?_, ?_, ?_⟩
    · dsimp only [ixstore, countRes]
      rw [countPend_cons, List.count_cons]
      simp only [beq_iff_eq]
      cases hl : ixlookup st.unbounds el.details.sessionID with
      | none =>
        dsimp only
        rw [ixerase_of_lookup_none _ _ hl]
        by_cases hio : i = o
        · rw [if_pos hio]
          omega
        · rw [if_neg hio]
          omega
      | some v =>
        obtain ⟨o0, e0⟩ := v
        have hbal := countPend_ixerase st.unbounds el.details.sessionID (o0, e0) o hnd hl
        rw [show ((o0, e0).1 : Nat) = o0 from rfl] at hbal
        dsimp only
        rw [List.count_cons]
        simp only [beq_iff_eq]
        by_cases hio : i = o <;> by_cases ho : o0 = o
        · rw [if_pos ho] at hbal
          rw [if_pos ho, if_pos hio]
          omega
        · rw [if_neg ho] at hbal
          rw [if_neg ho, if_pos hio]
          omega
        · rw [if_pos ho] at hbal
          rw [if_pos ho, if_neg hio]
          omega
        · rw [if_neg ho] at hbal
          rw [if_neg ho, if_neg hio]
          omega
    · dsimp only [ixstore]
      exact List.Nodup.cons (not_mem_keys_ixerase _ _) (keysNodup_ixerase _ _ hnd)
    · dsimp only [ixstore]
      exact Or.inl rfl
  -- parameters
  · cases hl : ixlookup st.unbounds el.details.sessionID with
    | none =>
      refine ⟨?_, ?_, ?_⟩
      · simp only [hl]
        dsimp only [countRes]
        omega
      · simp only [hl]
        exact hnd
      · simp [hl]
    | some v =>
      obtain ⟨o0, e0⟩ := v
      cases hp : ParseBindParameters (paramsSuffixErrlog el.message) with
      | error err =>
        refine ⟨?_, ?_, ?_⟩
        · simp only [hl, hp]
          dsimp only [countRes]
          omega
        · simp only [hl, hp]
          exact hnd
        · simp [hl, hp]
      | ok ps =>
        have hbal := countPend_ixerase st.unbounds el.details.sessionID (o0, e0) o hnd hl
        rw [show ((o0, e0).1 : Nat) = o0 from rfl] at hbal
        refine ⟨?_, ?_, ?_⟩
        · simp only [hl, hp]
          dsimp only [countRes]
          by_cases ho : o0 = o
          · rw [if_pos ho] at hbal ⊢
            omega
          · rw [if_neg ho] at hbal ⊢
            omega
        · simp only [hl, hp]
          exact keysNodup_ixerase _ _ hnd
        · simp [hl, hp]
  -- connection authorized
  · exact ⟨by dsimp only [countRes]; omega, hnd, Or.inr rfl⟩
  -- disconnection
  · exact ⟨by dsimp only [countRes]; omega, hnd, Or.inr rfl⟩
  -- connection received
  · exact ⟨by dsimp only [countRes]; omega, hnd, Or.inr rfl⟩
  -- errors
  · exact ⟨by dsimp only [countRes]; omega, hnd, Or.inr rfl⟩
  -- details
  · exact ⟨by dsimp only [countRes]; omega, hnd, Or.inr rfl⟩
  -- unmatched
  · exact ⟨by dsimp only [countRes]; omega, hnd, Or.inr rfl⟩

end PG

namespace PG

/-- `ParseItemIx` obeys the same ledger balance (tokenization and
timestamp failures leave the state untouched). -/
theorem ParseItemIx_balance (l : List Char) (i : Nat) (st : IxState)
    (o : Nat) (hnd : keysNodup st.unbounds) :
    (countRes o (ParseItemIx l i st).1
        + List.count o (ParseItemIx l i st).2.dropped
        + countPend o (ParseItemIx l i st).2.unbounds
        + List.count o st.stored
      = List.count o (ParseItemIx l i st).2.stored
        + List.count o st.dropped + countPend o st.unbounds)
    ∧ keysNodup (ParseItemIx l i st).2.unbounds
    ∧ ((ParseItemIx l i st).2.stored = i :: st.stored
        ∨ (ParseItemIx l i st).2.stored = st.stored) := by
  rw [ParseItemIx]
  split_ifs with hb1 hb2
  · exact ⟨by dsimp only [countRes]; omega, hnd, Or.inr rfl⟩
  · exact ⟨by dsimp only [countRes]; omega, hnd, Or.inr rfl⟩
  · exact parseDetailToItemIx_balance _ i st o hnd

/-- Counting origins across one emitted item. -/
theorem countBound_cons (o : Nat) (x : Item × Option Nat)
    (l : List (Item × Option Nat)) :
    countBound o (x :: l)
      = (if x.2 = some o then 1 else 0) + countBound o l := by
  rw [countBound, countBound, List.filter_cons]
  by_cases hx : x.2 = some o
  · simp [hx]
    omega
  · simp [hx]

/-- `countRes` of a successfully parsed item counts its origin. -/
theorem countRes_ok_some (o : Nat) (x : Item × Option Nat) :
    countRes o (.ok (some x)) = if x.2 = some o then 1 else 0 := by
  obtain ⟨it, o2⟩ := x
  cases o2 with
  | none => simp [countRes]
  | some o3 =>
    dsimp only [countRes]
    by_cases h3 : o3 = o
    · rw [if_pos h3, if_pos (by rw [h3])]
    · rw [if_neg h3, if_neg (by
        intro hc
        exact h3 (by simpa using hc))]

/-- The instrumented errlog fold balances the Execute ledger. -/
theorem runIx_balance (ls : List (List Char)) :
    ∀ (i : Nat) (st : IxState) (o : Nat), keysNodup st.unbounds →
    (countBound o (runIx ls i st).1
        + List.count o (runIx ls i st).2.2.dropped
        + countPend o (runIx ls i st).2.2.unbounds
        + List.count o st.stored
      = List.count o (runIx ls i st).2.2.stored
        + List.count o st.dropped + countPend o st.unbounds)
    ∧ keysNodup (runIx ls i st).2.2.unbounds := by
  induction ls with
  | nil =>
    intro i st o hnd
    refine ⟨?_, hnd⟩
    dsimp only [runIx, countBound]
    simp only [List.filter_nil, List.length_nil]
    omega
  | cons l ls ih =>
    intro i st o hnd
    have hstep := ParseItemIx_balance l i st o hnd
    have hrec := ih (i + 1) (ParseItemIx l i st).2 o hstep.2.1
    rw [runIx]
    cases hr : (ParseItemIx l i st).1 with
    | ok oi =>
      cases oi with
      | none =>
        simp only [hr]
        rw [hr] at hstep
        dsimp only [countRes] at hstep
        exact ⟨by omega, hrec.2⟩
      | some it =>
        simp only [hr]
        rw [hr, countRes_ok_some] at hstep
        refine ⟨?_, hrec.2⟩
        rw [countBound_cons]
        have h1 := hstep.1
        have h2 := hrec.1
        omega
    | error e =>
      simp only [hr]
      rw [hr] at hstep
      dsimp only [countRes] at hstep
      exact ⟨by omega, hrec.2⟩

set_option maxHeartbeats 1000000 in
/-- The instrumented step changes the stored list by at most the
current index (no key-distinctness needed). -/
theorem parseDetailToItemIx_stored (el : ExtractedLog) (i : Nat) (st : IxState) :
    (parseDetailToItemIx el i st).2.stored = i :: st.stored
      ∨ (parseDetailToItemIx el i st).2.stored = st.stored := by
  rw [parseDetailToItemIx]
  split_ifs
  · cases hl : ixlookup st.unbounds el.details.sessionID with
    | none =>
      right
      simp only [hl]
    | some v =>
      obtain ⟨o0, e0⟩ := v
      right
      simp only [hl]
  · exact Or.inr rfl
  · exact Or.inl rfl
  · exact Or.inl rfl
  · cases hl : ixlookup st.unbounds el.details.sessionID with
    | none =>
      right
      simp only [hl]
    | some v =>
      obtain ⟨o0, e0⟩ := v
      cases hp : ParseBindParameters (paramsSuffixErrlog el.message) with
      | error err =>
        right
        simp only [hl, hp]
      | ok ps =>
        right
        simp only [hl, hp]
  · exact Or.inr rfl
  · exact Or.inr rfl
  · exact Or.inr rfl
  · exact Or.inr rfl
  · exact Or.inr rfl
  · exact Or.inr rfl

/-- `ParseItemIx` changes the stored list by at most the current index. -/
theorem ParseItemIx_stored (l : List Char) (i : Nat) (st : IxState) :
    (ParseItemIx l i st).2.stored = i :: st.stored
      ∨ (ParseItemIx l i st).2.stored = st.stored := by
  rw [ParseItemIx]
  split_ifs
  · exact Or.inr rfl
  · exact Or.inr rfl
  · exact parseDetailToItemIx_stored _ i st

/-- The fold stores each line index at most once. -/
theorem runIx_stored_bound (ls : List (List Char)) :
    ∀ (i : Nat) (st : IxState) (o : Nat),
      List.count o (runIx ls i st).2.2.stored
        ≤ List.count o st.stored + (if i ≤ o then 1 else 0) := by
  induction ls with
  | nil =>
    intro i st o
    dsimp only [runIx]
    by_cases h : i ≤ o <;> simp [h]
  | cons l ls ih =>
    intro i st o
    have hrec := ih (i + 1) (ParseItemIx l i st).2 o
    have hfinal : (runIx (l :: ls) i st).2.2
        = (runIx ls (i + 1) (ParseItemIx l i st).2).2.2 := by
      rw [runIx]
      cases hr : (ParseItemIx l i st).1 with
      | ok oi => cases oi <;> simp [hr]
      | error e => simp [hr]
    rw [hfinal]
    have hstepcount : List.count o (ParseItemIx l i st).2.stored
        ≤ List.count o st.stored + (if i = o then 1 else 0) := by
      rcases ParseItemIx_stored l i st with h | h
      · rw [h, List.count_cons]
        simp only [beq_iff_eq]
        by_cases hio : i = o
        · simp [hio]
        · simp [hio]
      · rw [h]
        omega
    by_cases h1 : i = o
    · subst h1
      rw [if_pos (le_refl i)]
      rw [if_pos rfl] at hstepcount
      rw [if_neg (by omega)] at hrec
      omega
    · by_cases h3 : i ≤ o
      · rw [if_pos h3]
        rw [if_neg h1] at hstepcount
        rw [if_pos (by omega)] at hrec
        omega
      · rw [if_neg h3]
        rw [if_neg h1] at hstepcount
        rw [if_neg (by omega)] at hrec
        omega

end PG

namespace PG

/-- Lookup commutes with forgetting origins. -/
theorem ulookup_eraseIx (m : IxMap) (s : List Char) :
    ulookup (eraseIx m) s = (ixlookup m s).map Prod.snd := by
  induction m with
  | nil => rfl
  | cons kv rest ih =>
    rw [eraseIx, List.map_cons, ulookup, ixlookup]
    by_cases hk : kv.1 = s
    · rw [if_pos hk, if_pos hk]
      rfl
    · rw [if_neg hk, if_neg hk]
      exact ih

/-- Deletion commutes with forgetting origins. -/
theorem uerase_eraseIx (m : IxMap) (s : List Char) :
    uerase (eraseIx m) s = eraseIx (ixerase m s) := by
  induction m with
  | nil => rfl
  | cons kv rest ih =>
    obtain ⟨k, v⟩ := kv
    simp only [eraseIx, List.map_cons] at ih ⊢
    rw [uerase, ixerase]
    by_cases hk : k = s
    · rw [if_pos hk, if_pos hk]
      exact ih
    · rw [if_neg hk, if_neg hk]
      rw [List.map_cons]
      rw [ih]

set_option maxHeartbeats 1000000 in
/-- Forgetting the instrumentation of one step recovers the translated
`parseDetailToItem` exactly (errlog source). -/
theorem parseDetailToItemIx_erase (el : ExtractedLog) (i : Nat) (st : IxState) :
    Except.map (Option.map Prod.fst) (parseDetailToItemIx el i st).1
        = (parseDetailToItem el .errlog (eraseIx st.unbounds)).1
    ∧ eraseIx (parseDetailToItemIx el i st).2.unbounds
        = (parseDetailToItem el .errlog (eraseIx st.unbounds)).2 := by
  rw [parseDetailToItemIx, parseDetailToItem]
  rw [ulookup_eraseIx]
  by_cases h1 : durationMatch el.message .errlog = true
  · rw [if_pos h1, if_pos h1]
    cases hl : ixlookup st.unbounds el.details.sessionID with
    | none =>
      simp only [hl, Option.map_none]
      exact ⟨rfl, rfl⟩
    | some v =>
      obtain ⟨o0, e0⟩ := v
      simp only [hl, Option.map_some]
      exact ⟨rfl, (uerase_eraseIx st.unbounds el.details.sessionID).symm⟩
  rw [if_neg h1, if_neg h1]
  by_cases h2 : statementMatch el.message .errlog = true
  · rw [if_pos h2, if_pos h2]
    exact ⟨rfl, rfl⟩
  rw [if_neg h2, if_neg h2]
  by_cases h3 : unnamedExecMatch el.message .errlog = true
  · rw [if_pos h3, if_pos h3]
    refine ⟨rfl, ?_⟩
    dsimp only [ixstore]
    rw [eraseIx, List.map_cons, uinsert]
    rw [uerase_eraseIx]
    rfl
  rw [if_neg h3, if_neg h3]
  by_cases h4 : namedExecMatch el.message .errlog = true
  · rw [if_pos h4, if_pos h4]
    refine ⟨rfl, ?_⟩
    dsimp only [ixstore]
    rw [eraseIx, List.map_cons, uinsert]
    rw [uerase_eraseIx]
    rfl
  rw [if_neg h4, if_neg h4]
  by_cases h5 : paramsMatch el.message .errlog = true
  · rw [if_pos h5, if_pos h5]
    rw [show renderQueryErrlog (actionDetail ++ "parameters: ".toList) el.message
      = paramsSuffixErrlog el.message from rfl]
    cases hl : ixlookup st.unbounds el.details.sessionID with
    | none =>
      simp only [hl, Option.map_none]
      exact ⟨rfl, rfl⟩
    | some v =>
      obtain ⟨o0, e0⟩ := v
      simp only [hl, Option.map_some]
      cases hp : ParseBindParameters (paramsSuffixErrlog el.message) with
      | error err =>
        simp only [hp]
        exact ⟨rfl, rfl⟩
      | ok ps =>
        simp only [hp]
        exact ⟨rfl, (uerase_eraseIx st.unbounds el.details.sessionID).symm⟩
  rw [if_neg h5, if_neg h5]
  by_cases h6 : connAuthMatch el.message .errlog = true
  · rw [if_pos h6, if_pos h6]
    exact ⟨rfl, rfl⟩
  rw [if_neg h6, if_neg h6]
  by_cases h7 : disconnMatch el.message .errlog = true
  · rw [if_pos h7, if_pos h7]
    exact ⟨rfl, rfl⟩
  rw [if_neg h7, if_neg h7]
  by_cases h8 : connRecvMatch el.message .errlog = true
  · rw [if_pos h8, if_pos h8]
    exact ⟨rfl, rfl⟩
  rw [if_neg h8, if_neg h8]
  by_cases h9 : (decide (el.action = "ERROR".toList) || errorMatch el.message .errlog) = true
  · rw [if_pos h9, if_pos h9]
    exact ⟨rfl, rfl⟩
  rw [if_neg h9, if_neg h9]
  by_cases h10 : (decide (el.action = "DETAIL".toList) || detailMatch el.message .errlog) = true
  · rw [if_pos h10, if_pos h10]
    exact ⟨rfl, rfl⟩
  rw [if_neg h10, if_neg h10]
  exact ⟨rfl, rfl⟩

/-- Forgetting the instrumentation of a tokenized step recovers
`ParseItem`. -/
theorem ParseItemIx_erase (l : List Char) (i : Nat) (st : IxState) :
    Except.map (Option.map Prod.fst) (ParseItemIx l i st).1
        = (ParseItem l (eraseIx st.unbounds)).1
    ∧ eraseIx (ParseItemIx l i st).2.unbounds
        = (ParseItem l (eraseIx st.unbounds)).2 := by
  rw [ParseItemIx, ParseItem]
  split_ifs
  · exact ⟨rfl, rfl⟩
  · exact ⟨rfl, rfl⟩
  · exact parseDetailToItemIx_erase _ i st

/-- Forgetting the instrumentation of the fold recovers `runErrlog`. -/
theorem runIx_erase (ls : List (List Char)) :
    ∀ (i : Nat) (st : IxState),
      (runErrlog ls (eraseIx st.unbounds)).1 = (runIx ls i st).1.map Prod.fst
      ∧ (runErrlog ls (eraseIx st.unbounds)).2.1 = (runIx ls i st).2.1
      ∧ (runErrlog ls (eraseIx st.unbounds)).2.2
          = eraseIx (runIx ls i st).2.2.unbounds := by
  induction ls with
  | nil => exact fun i st => ⟨rfl, rfl, rfl⟩
  | cons l ls ih =>
    intro i st
    have hstep := ParseItemIx_erase l i st
    have hrec := ih (i + 1) (ParseItemIx l i st).2
    rw [hstep.2] at hrec
    rw [runErrlog, runIx]
    rw [← hstep.1]
    cases hr : (ParseItemIx l i st).1 with
    | ok oi =>
      cases oi with
      | none =>
        simp only [hr, Except.map, Option.map_none]
        exact hrec
      | some it =>
        simp only [hr, Except.map, Option.map_some]
        exact ⟨by rw [hrec.1]; rfl, hrec.2.1, hrec.2.2⟩
    | error e =>
      simp only [hr, Except.map]
      exact ⟨hrec.1, by rw [hrec.2.1], hrec.2.2⟩

end PG

namespace PG

set_option maxHeartbeats 1000000 in
/-- `parseDetailToItem` never emits the pending-`Execute` variant. -/
theorem parseDetailToItem_no_execute (el : ExtractedLog) (src : Source)
    (m : UMap) (it : Item)
    (h : (parseDetailToItem el src m).1 = .ok (some it)) :
    it.isExecute = false := by
  rw [parseDetailToItem.eq_def] at h
  repeat' split at h
  all_goals simp_all [bindExec, Item.isExecute]
  all_goals (subst h; rfl)

/-- `ParseItem` never emits the pending-`Execute` variant. -/
theorem ParseItem_no_execute (l : List Char) (m : UMap) (it : Item)
    (h : (ParseItem l m).1 = .ok (some it)) : it.isExecute = false := by
  simp only [ParseItem] at h
  split at h
  · simp at h
  split at h
  · simp at h
  exact parseDetailToItem_no_execute _ _ _ _ h

/-- No item emitted by the errlog fold is a pending `Execute`. -/
theorem runErrlog_no_execute (ls : List (List Char)) :
    ∀ (m : UMap) (it : Item), it ∈ (runErrlog ls m).1 → it.isExecute = false := by
  induction ls with
  | nil =>
    intro m it hmem
    simp [runErrlog] at hmem
  | cons l ls ih =>
    intro m it hmem
    rw [runErrlog] at hmem
    cases hr : (ParseItem l m).1 with
    | ok oi =>
      cases oi with
      | none =>
        simp only [hr] at hmem
        exact ih _ _ hmem
      | some it2 =>
        simp only [hr, List.mem_cons] at hmem
        rcases hmem with h | h
        · subst h
          exact ParseItem_no_execute l m it hr
        · exact ih _ _ h
    | error e =>
      simp only [hr] at hmem
      exact ih _ _ hmem

/-- C1 (counterexample): a pending Execute can be discarded mid-stream,
not only at end of input.  On `overwriteLines` the Execute stored by
line 0 yields no BoundExecute, is not pending at end of input, and was
dropped by the overwriting `execute` line 1 — even though its session
receives a completing `duration:` line afterwards.  The emitted
BoundExecute derives from the Execute of line 1. -/
theorem execute_lifecycle_overwrite_counterexample :
    List.count 0 (runIx overwriteLines 0 ixInit).2.2.stored = 1
    ∧ countBound 0 (runIx overwriteLines 0 ixInit).1 = 0
    ∧ countPend 0 (runIx overwriteLines 0 ixInit).2.2.unbounds = 0
    ∧ (runIx overwriteLines 0 ixInit).2.2.dropped = [0]
    ∧ (runIx overwriteLines 0 ixInit).1.map Prod.snd = [some 1]
    ∧ (ParseErrlog overwriteLines).1
        = [Item.boundExecute
            ⟨"2019-05-01 15:33:59.254 GMT".toList, "s1".toList,
              "postgres".toList, "postgres".toList⟩
            "select 2".toList []]
    ∧ (ParseErrlog overwriteLines).2 = [] := by
  refine ⟨?_, ?_, ?_, ?_, ?_, ?_, ?_⟩ <;> rfl

/-- C1 (amended): no Execute is ever emitted by the errlog parser: every
`execute` log line only stores a pending Execute in the per-session map
and returns no item, and every stored Execute is accounted for exactly
once — completed by exactly one emitted BoundExecute, dropped by a later
overwriting `execute` line for the same session, or still pending (and
so discarded) at end of input.  The accounting is stated over the
instrumented fold `runIx`, whose erasure recovers `ParseErrlog` exactly. -/
theorem execute_lifecycle_amended (lines : List (List Char)) :
    (∀ it ∈ (ParseErrlog lines).1, it.isExecute = false)
    ∧ (ParseErrlog lines).1 = (runIx lines 0 ixInit).1.map Prod.fst
    ∧ (∀ (el : ExtractedLog) (m : UMap),
        unnamedExecMatch el.message .errlog = true →
        durationMatch el.message .errlog = false →
        statementMatch el.message .errlog = false →
        (parseDetailToItem el .errlog m).1 = .ok none
        ∧ (parseDetailToItem el .errlog m).2
            = uinsert m el.details.sessionID
                ⟨el.details, renderQueryErrlog
                  (actionLog ++ "execute <unnamed>: ".toList) el.message⟩)
    ∧ (∀ o : Nat,
        countBound o (runIx lines 0 ixInit).1
          + List.count o (runIx lines 0 ixInit).2.2.dropped
          + countPend o (runIx lines 0 ixInit).2.2.unbounds
        = List.count o (runIx lines 0 ixInit).2.2.stored)
    ∧ (∀ o : Nat, List.count o (runIx lines 0 ixInit).2.2.stored ≤ 1) := by
  refine ⟨?_, ?_, ?_, ?_, ?_⟩
  · exact fun it hmem => runErrlog_no_execute lines [] it hmem
  · exact (runIx_erase lines 0 ixInit).1
  · intro el m h1 h2 h3
    rw [parseDetailToItem]
    rw [if_neg (by simp [h2]), if_neg (by simp [h3]), if_pos h1]
    exact ⟨rfl, rfl⟩
  · intro o
    have hb := (runIx_balance lines 0 ixInit o List.nodup_nil).1
    have h0 : List.count o ixInit.stored = 0 := rfl
    have h1 : List.count o ixInit.dropped = 0 := rfl
    have h2 : countPend o ixInit.unbounds = 0 := rfl
    omega
  · intro o
    have hs := runIx_stored_bound lines 0 ixInit o
    rw [if_pos (Nat.zero_le o)] at hs
    have h0 : List.count o ixInit.stored = 0 := rfl
    omega

end PG
